import Mathlib

/-!
Verification development for the StealthSwap batched-intent system.

The definitions below are a shallow embedding of:
- `contracts/src/StealthBatchWindow.sol` (window-clock arithmetic),
- `contracts/src/StealthBatchHook.sol` (intent ledger: queue / clear / claim / cancel),
- `backend/src/api.ts` (`withBackoff` retry wrapper).

Machine integers are modelled as `Nat`.  The explicit `uint64` downcast in the
window-id computation is modelled by `% 2 ^ 64`; Solidity 0.8 checked
arithmetic that can actually revert on reachable inputs (the 256-bit product
in `claim`, the subtraction in `cancelUncleared`, the division in `claim`) is
modelled by explicit guard branches returning panic-style errors.  Additions
such as `window.totalIn += amountIn` cannot overflow `uint256` on any
reachable state (at most `2 ^ 16 - 1` intents of less than `2 ^ 128` each),
so they are modelled as plain `Nat` addition.

A transaction that reverts leaves the contract state unchanged; `step` models
this by keeping the pre-state whenever an operation returns an error.
The `gCancelled` / `gClaimedOut` fields of `ExecState` are ghost bookkeeping
recording the `IntentCancelled` and `Claimed` events emitted by the source,
keyed by `(windowId, intentId)`; the contract state proper is the
`windows` / `intents` / `hasQueuedIntent` fields.
-/

namespace StealthSwap

def U64 : ℕ := 2 ^ 64

def U256 : ℕ := 2 ^ 256

/-- Typed errors of the hook contracts, including the two Solidity panic
conditions (checked-arithmetic overflow and division by zero) that the
inline pro-rata computation in `claim` can raise. -/
inductive HookError : Type where
  | WindowNotStarted : HookError
  | SBWindowNotStarted : ℕ → ℕ → HookError
  | RecipientZero : HookError
  | AmountTooSmall : HookError
  | AlreadyQueuedInWindow : HookError
  | MaxIntentsReached : HookError
  | UnknownWindow : HookError
  | WindowAlreadyCleared : HookError
  | WindowNotEnded : ℕ → ℕ → HookError
  | WindowNotCleared : HookError
  | InvalidIntentId : HookError
  | IntentAlreadyClaimed : HookError
  | UnauthorizedClaim : HookError
  | MinOutNotMet : ℕ → ℕ → HookError
  | CancelDelayNotElapsed : ℕ → ℕ → HookError
  | ArithmeticOverflow : HookError
  | ArithmeticUnderflow : HookError
  | DivisionByZero : HookError
deriving DecidableEq

/-- StealthBatchWindow.getWindowId: reverts `WindowNotStarted(blockNumber,
startBlock)` below `startBlock`, otherwise returns
`uint64((blockNumber - startBlock) / blocksPerWindow)`; the downcast is the
`% 2 ^ 64`. -/
def getWindowId (startBlock blocksPerWindow blockNumber : ℕ) : Except HookError ℕ :=
  if blockNumber < startBlock then
    Except.error (HookError.SBWindowNotStarted blockNumber startBlock)
  else
    Except.ok (((blockNumber - startBlock) / blocksPerWindow) % U64)

/-- StealthBatchWindow.getWindowStart: `startBlock + windowId * blocksPerWindow`
(exact in `uint256` for any `uint64` inputs). -/
def getWindowStart (startBlock blocksPerWindow windowId : ℕ) : ℕ :=
  startBlock + windowId * blocksPerWindow

/-- StealthBatchWindow.getWindowEnd: the exclusive upper bound
`getWindowStart(windowId) + blocksPerWindow`. -/
def getWindowEnd (startBlock blocksPerWindow windowId : ℕ) : ℕ :=
  getWindowStart startBlock blocksPerWindow windowId + blocksPerWindow

/-- SwapIntent struct of StealthBatchHook (addresses modelled as `Nat`). -/
structure SwapIntent where
  user : ℕ
  recipient : ℕ
  amountIn : ℕ
  minOut : ℕ
  windowId : ℕ
  zeroForOne : Bool
  claimed : Bool
deriving DecidableEq

/-- Placeholder intent used with `List.getD`; every access is guarded by an
index-in-bounds check exactly as the source checks `intentId` against the
array length. -/
def dummyIntent : SwapIntent :=
  { user := 0, recipient := 0, amountIn := 0, minOut := 0,
    windowId := 0, zeroForOne := false, claimed := false }

/-- WindowState struct of StealthBatchHook: `totalIn`, `totalOut`,
`intentCount`, `cleared`. -/
structure WindowState where
  totalIn : ℕ
  totalOut : ℕ
  intentCount : ℕ
  cleared : Bool
deriving DecidableEq

/-- Constructor-immutable configuration of StealthBatchHook. -/
structure Cfg where
  startBlock : ℕ
  blocksPerWindow : ℕ
  cancelDelayBlocks : ℕ
  maxIntentsPerWindow : ℕ
  minAmountIn : ℕ
  zeroForOneDirection : Bool

/-- Constructor preconditions of StealthBatchHook (`BlocksPerWindowZero`,
`MaxIntentsZero`, `MinAmountZero`) together with the `uint64` bounds of the
`startBlock` and `blocksPerWindow` constructor arguments. -/
def Cfg.WF (cfg : Cfg) : Prop :=
  0 < cfg.blocksPerWindow ∧ 0 < cfg.maxIntentsPerWindow ∧ 0 < cfg.minAmountIn ∧
    cfg.startBlock < U64 ∧ cfg.blocksPerWindow < U64

/-- Pointwise map update (Solidity storage-mapping write). -/
def fupd {α : Type} (f : ℕ → α) (k : ℕ) (v : α) : ℕ → α :=
  fun j => if j = k then v else f j

/-- Two-level map update for `mapping(uint64 => mapping(...))`. -/
def fupd2 {α : Type} (g : ℕ → ℕ → α) (w i : ℕ) (v : α) : ℕ → ℕ → α :=
  fupd g w (fupd (g w) i v)

/-- Per-pool storage of StealthBatchHook, restricted to the single allowed
pool, plus the ghost event record (`gCancelled` mirrors `IntentCancelled`
events, `gClaimedOut` mirrors the `amountOut` of `Claimed` events). -/
structure ExecState where
  windows : ℕ → WindowState
  intents : ℕ → List SwapIntent
  hasQueuedIntent : ℕ → ℕ → Bool
  gCancelled : ℕ → ℕ → Bool
  gClaimedOut : ℕ → ℕ → Option ℕ

/-- Freshly deployed contract: every mapping holds Solidity default values. -/
def initState : ExecState :=
  { windows := fun _ => { totalIn := 0, totalOut := 0, intentCount := 0, cleared := false },
    intents := fun _ => [],
    hasQueuedIntent := fun _ _ => false,
    gCancelled := fun _ _ => false,
    gClaimedOut := fun _ _ => none }

/-- Value of `uint64((block.number - startBlock) / blocksPerWindow)`, the
truncating downcast included. -/
def currentWindowIdRaw (cfg : Cfg) (blockNumber : ℕ) : ℕ :=
  ((blockNumber - cfg.startBlock) / cfg.blocksPerWindow) % U64

/-- StealthBatchHook.getCurrentWindowId at an explicit `block.number`. -/
def getCurrentWindowId (cfg : Cfg) (blockNumber : ℕ) : Except HookError ℕ :=
  if blockNumber < cfg.startBlock then Except.error HookError.WindowNotStarted
  else Except.ok (currentWindowIdRaw cfg blockNumber)

/-- StealthBatchHook.getWindowBounds: `(windowStart, windowEndExclusive)`. -/
def getWindowBounds (cfg : Cfg) (windowId : ℕ) : ℕ × ℕ :=
  (cfg.startBlock + windowId * cfg.blocksPerWindow,
   cfg.startBlock + windowId * cfg.blocksPerWindow + cfg.blocksPerWindow)

/-- The placeholder accounting function `_computeWindowTotalOut` of the hook:
returns `totalIn` unchanged (1:1 MVP accounting), ignoring the window id. -/
def computeWindowTotalOut (windowId totalIn : ℕ) : ℕ :=
  totalIn

/-- The freshly pushed SwapIntent record of `queueSwapExactIn`. -/
def queueIntent (cfg : Cfg) (windowId sender amountIn minOut recipient : ℕ) : SwapIntent :=
  { user := sender, recipient := recipient, amountIn := amountIn, minOut := minOut,
    windowId := windowId, zeroForOne := cfg.zeroForOneDirection, claimed := false }

/-- State change of a successful `queueSwapExactIn` into window `windowId`:
push the new intent, add `amountIn` to `totalIn`, increment `intentCount`,
set the sticky per-owner flag. -/
def queueApply (cfg : Cfg) (s : ExecState) (windowId sender amountIn minOut recipient : ℕ) :
    ExecState :=
  { s with
      intents := fupd s.intents windowId
        (s.intents windowId ++ [queueIntent cfg windowId sender amountIn minOut recipient]),
      windows := fupd s.windows windowId
        { totalIn := (s.windows windowId).totalIn + amountIn,
          totalOut := (s.windows windowId).totalOut,
          intentCount := (s.windows windowId).intentCount + 1,
          cleared := (s.windows windowId).cleared },
      hasQueuedIntent := fupd2 s.hasQueuedIntent windowId sender true }

/-- StealthBatchHook.queueSwapExactIn executed by `sender` at block
`blockNumber`: checks `RecipientZero`, `AmountTooSmall`
(`amountIn < minAmountIn`), the current-window duplicate-owner flag and the
window capacity, then applies `queueApply`.  The call to
`getCurrentWindowId` is inlined: its `WindowNotStarted` revert propagates,
otherwise the target window is `currentWindowIdRaw`.  Returns the window id
and the zero-based intent id (`newList.length - 1`, i.e. the length of the
intents array before the push). -/
def queueSwapExactIn (cfg : Cfg) (s : ExecState) (blockNumber sender amountIn minOut recipient : ℕ) :
    Except HookError (ExecState × ℕ × ℕ) :=
  if recipient = 0 then Except.error HookError.RecipientZero
  else if amountIn < cfg.minAmountIn then Except.error HookError.AmountTooSmall
  else if blockNumber < cfg.startBlock then Except.error HookError.WindowNotStarted
  else
    if s.hasQueuedIntent (currentWindowIdRaw cfg blockNumber) sender then
      Except.error HookError.AlreadyQueuedInWindow
    else if cfg.maxIntentsPerWindow ≤ (s.windows (currentWindowIdRaw cfg blockNumber)).intentCount then
      Except.error HookError.MaxIntentsReached
    else
      Except.ok
        (queueApply cfg s (currentWindowIdRaw cfg blockNumber) sender amountIn minOut recipient,
          currentWindowIdRaw cfg blockNumber, (s.intents (currentWindowIdRaw cfg blockNumber)).length)

/-- State change of a successful `clear`: fix `totalOut` and set `cleared`. -/
def clearApply (s : ExecState) (windowId : ℕ) : ExecState :=
  { s with
      windows := fupd s.windows windowId
        { totalIn := (s.windows windowId).totalIn,
          totalOut := computeWindowTotalOut windowId (s.windows windowId).totalIn,
          intentCount := (s.windows windowId).intentCount, cleared := true } }

/-- StealthBatchHook.clear at block `blockNumber`: `UnknownWindow` on
`intentCount == 0`, `WindowAlreadyCleared` on a cleared window,
`WindowNotEnded(blockNumber, windowEndExclusive)` before the exclusive end
boundary; otherwise stores `_computeWindowTotalOut(windowId, totalIn)` into
`totalOut` and sets `cleared`. -/
def clear (cfg : Cfg) (s : ExecState) (blockNumber windowId : ℕ) : Except HookError ExecState :=
  if (s.windows windowId).intentCount = 0 then Except.error HookError.UnknownWindow
  else if (s.windows windowId).cleared then Except.error HookError.WindowAlreadyCleared
  else if blockNumber < (getWindowBounds cfg windowId).2 then
    Except.error (HookError.WindowNotEnded blockNumber (getWindowBounds cfg windowId).2)
  else
    Except.ok (clearApply s windowId)

/-- The intent stored at `(windowId, intentId)`; all uses are guarded by the
source index check against the array length. -/
def intentAt (s : ExecState) (windowId intentId : ℕ) : SwapIntent :=
  (s.intents windowId).getD intentId dummyIntent

/-- The pro-rata expression computed inline by `claim`:
`uint256(intent.amountIn) * window.totalOut / window.totalIn`. -/
def claimAmountOut (s : ExecState) (windowId intentId : ℕ) : ℕ :=
  (intentAt s windowId intentId).amountIn * (s.windows windowId).totalOut /
    (s.windows windowId).totalIn

/-- State change of a successful `claim`: mark the intent claimed and record
the `Claimed` event amount in the ghost map. -/
def claimApply (s : ExecState) (windowId intentId : ℕ) : ExecState :=
  { s with
      intents := fupd s.intents windowId
        ((s.intents windowId).set intentId { intentAt s windowId intentId with claimed := true }),
      gClaimedOut := fupd2 s.gClaimedOut windowId intentId
        (some (claimAmountOut s windowId intentId)) }

/-- StealthBatchHook.claim by `sender`: guards `WindowNotCleared`,
`InvalidIntentId`, `UnauthorizedClaim`, `IntentAlreadyClaimed`; then computes
`amountOut = uint256(amountIn) * totalOut / totalIn` with Solidity 0.8
checked semantics (overflow of the 256-bit product and division by zero
revert), reverts `MinOutNotMet(amountOut, minOut)` below the intent floor,
and otherwise applies `claimApply`.  The window record itself is not touched
by the source. -/
def claim (cfg : Cfg) (s : ExecState) (blockNumber sender windowId intentId : ℕ) :
    Except HookError (ExecState × ℕ) :=
  if (s.windows windowId).cleared = false then Except.error HookError.WindowNotCleared
  else if (s.intents windowId).length ≤ intentId then Except.error HookError.InvalidIntentId
  else if ¬ (intentAt s windowId intentId).user = sender then
    Except.error HookError.UnauthorizedClaim
  else if (intentAt s windowId intentId).claimed then Except.error HookError.IntentAlreadyClaimed
  else if U256 ≤ (intentAt s windowId intentId).amountIn * (s.windows windowId).totalOut then
    Except.error HookError.ArithmeticOverflow
  else if (s.windows windowId).totalIn = 0 then Except.error HookError.DivisionByZero
  else if claimAmountOut s windowId intentId < (intentAt s windowId intentId).minOut then
    Except.error (HookError.MinOutNotMet (claimAmountOut s windowId intentId)
      (intentAt s windowId intentId).minOut)
  else
    Except.ok (claimApply s windowId intentId, claimAmountOut s windowId intentId)

/-- State change of a successful cancel: mark the intent terminal via the
shared `claimed` flag, subtract its `amountIn` from `totalIn` (checked),
decrement `intentCount`, and record the `IntentCancelled` event in the ghost
`gCancelled`. -/
def cancelApply (s : ExecState) (windowId intentId : ℕ) : ExecState :=
  { s with
      intents := fupd s.intents windowId
        ((s.intents windowId).set intentId { intentAt s windowId intentId with claimed := true }),
      windows := fupd s.windows windowId
        { totalIn := (s.windows windowId).totalIn - (intentAt s windowId intentId).amountIn,
          totalOut := (s.windows windowId).totalOut,
          intentCount := (s.windows windowId).intentCount - 1,
          cleared := (s.windows windowId).cleared },
      gCancelled := fupd2 s.gCancelled windowId intentId true }

/-- StealthBatchHook.cancelUncleared by `sender` at block `blockNumber`:
guards `UnknownWindow`, `WindowAlreadyCleared`, `InvalidIntentId`, the cancel
delay (`windowEndExclusive + cancelDelayBlocks`), `UnauthorizedClaim` and
`IntentAlreadyClaimed`; then applies `cancelApply`. -/
def cancelUncleared (cfg : Cfg) (s : ExecState) (blockNumber sender windowId intentId : ℕ) :
    Except HookError ExecState :=
  if (s.windows windowId).intentCount = 0 then Except.error HookError.UnknownWindow
  else if (s.windows windowId).cleared then Except.error HookError.WindowAlreadyCleared
  else if (s.intents windowId).length ≤ intentId then Except.error HookError.InvalidIntentId
  else if blockNumber < (getWindowBounds cfg windowId).2 + cfg.cancelDelayBlocks then
    Except.error (HookError.CancelDelayNotElapsed blockNumber
      ((getWindowBounds cfg windowId).2 + cfg.cancelDelayBlocks))
  else if ¬ (intentAt s windowId intentId).user = sender then
    Except.error HookError.UnauthorizedClaim
  else if (intentAt s windowId intentId).claimed then Except.error HookError.IntentAlreadyClaimed
  else if (s.windows windowId).totalIn < (intentAt s windowId intentId).amountIn then
    Except.error HookError.ArithmeticUnderflow
  else
    Except.ok (cancelApply s windowId intentId)

/-- Externally callable mutating actions of the hook. -/
inductive Act : Type where
  | queue : ℕ → ℕ → ℕ → Act
  | clearW : ℕ → Act
  | claimI : ℕ → ℕ → Act
  | cancelI : ℕ → ℕ → Act

/-- One transaction: the block it executes in, its sender, and the action. -/
structure Call where
  blk : ℕ
  sender : ℕ
  act : Act

/-- Transaction semantics: a reverting call leaves the state unchanged. -/
def step (cfg : Cfg) (s : ExecState) (c : Call) : ExecState :=
  match c.act with
  | Act.queue amountIn minOut recipient =>
    match queueSwapExactIn cfg s c.blk c.sender amountIn minOut recipient with
    | Except.ok out => out.1
    | Except.error _ => s
  | Act.clearW windowId =>
    match clear cfg s c.blk windowId with
    | Except.ok s' => s'
    | Except.error _ => s
  | Act.claimI windowId intentId =>
    match claim cfg s c.blk c.sender windowId intentId with
    | Except.ok out => out.1
    | Except.error _ => s
  | Act.cancelI windowId intentId =>
    match cancelUncleared cfg s c.blk c.sender windowId intentId with
    | Except.ok s' => s'
    | Except.error _ => s

/-- Execution of a list of transactions in order. -/
def run (cfg : Cfg) (s : ExecState) (calls : List Call) : ExecState :=
  calls.foldl (step cfg) s

/-- Sum of the `amountOut` of all `Claimed` events of a window (ghost). -/
def claimedOutSum (s : ExecState) (w : ℕ) : ℕ :=
  ∑ i ∈ Finset.range (s.intents w).length, (s.gClaimedOut w i).getD 0

/-- Sum of `amountIn` over the intents of a window that were claimed via
`claim` (ghost). -/
def claimedInSum (s : ExecState) (w : ℕ) : ℕ :=
  ∑ i ∈ Finset.range (s.intents w).length,
    (if (s.gClaimedOut w i).isSome then ((s.intents w).getD i dummyIntent).amountIn else 0)

/-- Sum of `amountIn` over the non-cancelled intents of a window (ghost). -/
def uncancelledInSum (s : ExecState) (w : ℕ) : ℕ :=
  ∑ i ∈ Finset.range (s.intents w).length,
    (if s.gCancelled w i then 0 else ((s.intents w).getD i dummyIntent).amountIn)

/-- Number of non-cancelled intents of a window (ghost). -/
def uncancelledCount (s : ExecState) (w : ℕ) : ℕ :=
  ∑ i ∈ Finset.range (s.intents w).length, (if s.gCancelled w i then 0 else 1)

/-- Backoff delay state of `withBackoff` in `backend/src/api.ts`: `delaySeq 0`
is the base delay used before the first retry, and each subsequent delay is
the previous one doubled, capped at the maximum (`Math.min(delayMs * 2,
maxDelay)`). -/
def delaySeq (base maxDelay : ℕ) : ℕ → ℕ
  | 0 => base
  | k + 1 => min (2 * delaySeq base maxDelay k) maxDelay

/-- Control flow of the retry loop of `withBackoff`: `fn i` is the outcome of
the i-th invocation of the wrapped action (0-based); `fuel` is the number of
retries still allowed.  With no fuel left the outcome of the final attempt is
returned as is (a last error is rethrown). -/
def backoffRun {E A : Type} (fn : ℕ → Except E A) : ℕ → ℕ → Except E A
  | 0, attempt => fn attempt
  | fuel + 1, attempt =>
    match fn attempt with
    | Except.ok a => Except.ok a
    | Except.error _ => backoffRun fn fuel (attempt + 1)

/-- The `withBackoff` wrapper with `API_RPC_MAX_RETRIES = maxRetries`. -/
def withBackoff {E A : Type} (maxRetries : ℕ) (fn : ℕ → Except E A) : Except E A :=
  backoffRun fn maxRetries 0

/-- Number of times `withBackoff` invokes the wrapped action. -/
def backoffCalls {E A : Type} (fn : ℕ → Except E A) : ℕ → ℕ → ℕ
  | 0, _ => 1
  | fuel + 1, attempt =>
    match fn attempt with
    | Except.ok _ => 1
    | Except.error _ => 1 + backoffCalls fn fuel (attempt + 1)

/-- Boolean success test for `Except` results. -/
def exceptIsOk {E A : Type} : Except E A → Bool
  | Except.ok _ => true
  | Except.error _ => false

end StealthSwap

namespace StealthSwap

theorem fupd_self {A : Type} (f : ℕ → A) (k : ℕ) (v : A) : fupd f k v k = v := by
  simp [fupd]

theorem fupd_ne {A : Type} (f : ℕ → A) (k : ℕ) (v : A) (j : ℕ) (h : ¬ j = k) :
    fupd f k v j = f j := by
  simp [fupd, h]

theorem div_add_div_le (x y d : ℕ) : x / d + y / d ≤ (x + y) / d := by
  rcases Nat.eq_zero_or_pos d with h | h
  · subst h; simp
  · rw [Nat.le_div_iff_mul_le h, Nat.add_mul]
    exact Nat.add_le_add (Nat.div_mul_le_self x d) (Nat.div_mul_le_self y d)

theorem sum_ite_point (n j v : ℕ) (f : ℕ → ℕ) (hj : j < n) :
    (∑ i ∈ Finset.range n, if i = j then v else f i) + f j =
      v + ∑ i ∈ Finset.range n, f i := by
  have hjmem : j ∈ Finset.range n := Finset.mem_range.mpr hj
  have h1 : (∑ i ∈ Finset.range n, if i = j then v else f i) =
      (∑ i ∈ (Finset.range n).erase j, f i) + v := by
    rw [← Finset.sum_erase_add (Finset.range n) _ hjmem]
    congr 1
    · exact Finset.sum_congr rfl fun i hi => if_neg (Finset.ne_of_mem_erase hi)
    · exact if_pos rfl
  have h2 : (∑ i ∈ Finset.range n, f i) =
      (∑ i ∈ (Finset.range n).erase j, f i) + f j :=
    (Finset.sum_erase_add _ _ hjmem).symm
  omega

theorem getD_set_self {A : Type} :
    ∀ (l : List A) (i : ℕ) (a d : A), i < l.length → (l.set i a).getD i d = a
  | [], i, _, _, h => absurd h (by simp)
  | _ :: _, 0, _, _, _ => rfl
  | _ :: xs, i + 1, a, d, h => getD_set_self xs i a d (by simpa using h)

theorem getD_set_ne {A : Type} :
    ∀ (l : List A) (i j : ℕ) (a d : A), ¬ j = i → (l.set i a).getD j d = l.getD j d
  | [], _, _, _, _, _ => rfl
  | _ :: _, 0, 0, _, _, h => absurd rfl h
  | _ :: _, 0, _ + 1, _, _, _ => rfl
  | _ :: _, _ + 1, 0, _, _, _ => rfl
  | _ :: xs, i + 1, j + 1, a, d, h => getD_set_ne xs i j a d (by omega)

theorem getD_append_lt {A : Type} :
    ∀ (l : List A) (x d : A) (i : ℕ), i < l.length → (l ++ [x]).getD i d = l.getD i d
  | [], _, _, _, h => absurd h (by simp)
  | _ :: _, _, _, 0, _ => rfl
  | _ :: xs, x, d, i + 1, h => getD_append_lt xs x d i (by simpa using h)

theorem getD_append_len {A : Type} :
    ∀ (l : List A) (x d : A), (l ++ [x]).getD l.length d = x
  | [], _, _ => rfl
  | _ :: xs, x, d => getD_append_len xs x d

end StealthSwap
namespace StealthSwap

theorem queue_ok {cfg : Cfg} {s : ExecState} {blockNumber sender amountIn minOut recipient : ℕ}
    {s' : ExecState} {wid iid : ℕ}
    (h : queueSwapExactIn cfg s blockNumber sender amountIn minOut recipient =
      Except.ok (s', wid, iid)) :
    ¬ recipient = 0 ∧ cfg.minAmountIn ≤ amountIn ∧ cfg.startBlock ≤ blockNumber ∧
    wid = currentWindowIdRaw cfg blockNumber ∧
    s.hasQueuedIntent wid sender = false ∧
    (s.windows wid).intentCount < cfg.maxIntentsPerWindow ∧
    iid = (s.intents wid).length ∧
    s' = queueApply cfg s wid sender amountIn minOut recipient := by
  unfold queueSwapExactIn at h
  split at h
  · exact absurd h (by simp)
  split at h
  · exact absurd h (by simp)
  split at h
  · exact absurd h (by simp)
  split at h
  · exact absurd h (by simp)
  split at h
  · exact absurd h (by simp)
  rename_i h0 h1 h2 h3 h4
  simp only [Except.ok.injEq, Prod.mk.injEq] at h
  obtain ⟨hs, hwid, hiid⟩ := h
  subst hwid
  exact ⟨h0, by omega, by omega, rfl, by simpa using h3, by omega, hiid.symm, hs.symm⟩

theorem clear_ok {cfg : Cfg} {s : ExecState} {blockNumber windowId : ℕ} {s' : ExecState}
    (h : clear cfg s blockNumber windowId = Except.ok s') :
    (s.windows windowId).intentCount ≠ 0 ∧ (s.windows windowId).cleared = false ∧
    (getWindowBounds cfg windowId).2 ≤ blockNumber ∧ s' = clearApply s windowId := by
  unfold clear at h
  split at h
  · exact absurd h (by simp)
  split at h
  · exact absurd h (by simp)
  split at h
  · exact absurd h (by simp)
  rename_i h0 h1 h2
  simp only [Except.ok.injEq] at h
  exact ⟨h0, by simpa using h1, by omega, h.symm⟩

theorem claim_ok {cfg : Cfg} {s : ExecState} {blockNumber sender windowId intentId : ℕ}
    {s' : ExecState} {amountOut : ℕ}
    (h : claim cfg s blockNumber sender windowId intentId = Except.ok (s', amountOut)) :
    (s.windows windowId).cleared = true ∧ intentId < (s.intents windowId).length ∧
    (intentAt s windowId intentId).user = sender ∧
    (intentAt s windowId intentId).claimed = false ∧
    (intentAt s windowId intentId).amountIn * (s.windows windowId).totalOut < U256 ∧
    (s.windows windowId).totalIn ≠ 0 ∧
    (intentAt s windowId intentId).minOut ≤ claimAmountOut s windowId intentId ∧
    amountOut = claimAmountOut s windowId intentId ∧
    s' = claimApply s windowId intentId := by
  unfold claim at h
  split at h
  · exact absurd h (by simp)
  split at h
  · exact absurd h (by simp)
  split at h
  · exact absurd h (by simp)
  split at h
  · exact absurd h (by simp)
  split at h
  · exact absurd h (by simp)
  split at h
  · exact absurd h (by simp)
  split at h
  · exact absurd h (by simp)
  rename_i h0 h1 h2 h3 h4 h5 h6
  simp only [Except.ok.injEq, Prod.mk.injEq] at h
  refine ⟨by simpa using h0, by omega, by simpa using h2, by simpa using h3, by omega, h5, by omega,
    h.2.symm, h.1.symm⟩

theorem cancel_ok {cfg : Cfg} {s : ExecState} {blockNumber sender windowId intentId : ℕ}
    {s' : ExecState}
    (h : cancelUncleared cfg s blockNumber sender windowId intentId = Except.ok s') :
    (s.windows windowId).intentCount ≠ 0 ∧ (s.windows windowId).cleared = false ∧
    intentId < (s.intents windowId).length ∧
    (getWindowBounds cfg windowId).2 + cfg.cancelDelayBlocks ≤ blockNumber ∧
    (intentAt s windowId intentId).user = sender ∧
    (intentAt s windowId intentId).claimed = false ∧
    (intentAt s windowId intentId).amountIn ≤ (s.windows windowId).totalIn ∧
    s' = cancelApply s windowId intentId := by
  unfold cancelUncleared at h
  split at h
  · exact absurd h (by simp)
  split at h
  · exact absurd h (by simp)
  split at h
  · exact absurd h (by simp)
  split at h
  · exact absurd h (by simp)
  split at h
  · exact absurd h (by simp)
  split at h
  · exact absurd h (by simp)
  split at h
  · exact absurd h (by simp)
  rename_i h0 h1 h2 h3 h4 h5 h6
  simp only [Except.ok.injEq] at h
  exact ⟨h0, by simpa using h1, by omega, by omega, by simpa using h4, by simpa using h5,
    by omega, h.symm⟩

end StealthSwap
namespace StealthSwap

theorem length_queueApply (cfg : Cfg) (s : ExecState) (wid sender a m r : ℕ) :
    ((queueApply cfg s wid sender a m r).intents wid).length = (s.intents wid).length + 1 := by
  simp [queueApply, fupd_self]

theorem intents_claimApply (s : ExecState) (wid iid : ℕ) :
    (claimApply s wid iid).intents wid =
      (s.intents wid).set iid { intentAt s wid iid with claimed := true } := by
  simp [claimApply, fupd_self]

theorem length_claimApply (s : ExecState) (wid iid : ℕ) :
    ((claimApply s wid iid).intents wid).length = (s.intents wid).length := by
  simp [intents_claimApply]

theorem intents_cancelApply (s : ExecState) (wid iid : ℕ) :
    (cancelApply s wid iid).intents wid =
      (s.intents wid).set iid { intentAt s wid iid with claimed := true } := by
  simp [cancelApply, fupd_self]

theorem length_cancelApply (s : ExecState) (wid iid : ℕ) :
    ((cancelApply s wid iid).intents wid).length = (s.intents wid).length := by
  simp [intents_cancelApply]

theorem amountIn_set_claimed (s : ExecState) (wid iid j : ℕ) (hj : j < (s.intents wid).length) :
    (((s.intents wid).set iid { intentAt s wid iid with claimed := true }).getD j
      dummyIntent).amountIn = ((s.intents wid).getD j dummyIntent).amountIn := by
  by_cases hji : j = iid
  · subst hji
    rw [getD_set_self _ _ _ _ hj]
    rfl
  · rw [getD_set_ne _ _ _ _ _ hji]

theorem uncancelledInSum_queueApply (cfg : Cfg) (s : ExecState) (wid sender a m r : ℕ)
    (hg : s.gCancelled wid (s.intents wid).length = false) :
    uncancelledInSum (queueApply cfg s wid sender a m r) wid = uncancelledInSum s wid + a := by
  unfold uncancelledInSum
  rw [length_queueApply, Finset.sum_range_succ]
  have hq : (queueApply cfg s wid sender a m r).gCancelled = s.gCancelled := rfl
  have hqi : (queueApply cfg s wid sender a m r).intents wid =
      s.intents wid ++ [queueIntent cfg wid sender a m r] := by
    simp [queueApply, fupd_self]
  rw [hq, hqi]
  congr 1
  · refine Finset.sum_congr rfl fun i hi => ?_
    rw [getD_append_lt _ _ _ _ (Finset.mem_range.mp hi)]
  · rw [getD_append_len, hg]
    rfl

theorem uncancelledCount_queueApply (cfg : Cfg) (s : ExecState) (wid sender a m r : ℕ)
    (hg : s.gCancelled wid (s.intents wid).length = false) :
    uncancelledCount (queueApply cfg s wid sender a m r) wid = uncancelledCount s wid + 1 := by
  unfold uncancelledCount
  rw [length_queueApply, Finset.sum_range_succ]
  have hq : (queueApply cfg s wid sender a m r).gCancelled = s.gCancelled := rfl
  rw [hq, hg]
  simp

theorem claimedOutSum_queueApply (cfg : Cfg) (s : ExecState) (wid sender a m r : ℕ)
    (hg : s.gClaimedOut wid (s.intents wid).length = none) :
    claimedOutSum (queueApply cfg s wid sender a m r) wid = claimedOutSum s wid := by
  unfold claimedOutSum
  rw [length_queueApply, Finset.sum_range_succ]
  have hq : (queueApply cfg s wid sender a m r).gClaimedOut = s.gClaimedOut := rfl
  rw [hq, hg]
  simp

theorem claimedInSum_queueApply (cfg : Cfg) (s : ExecState) (wid sender a m r : ℕ)
    (hg : s.gClaimedOut wid (s.intents wid).length = none) :
    claimedInSum (queueApply cfg s wid sender a m r) wid = claimedInSum s wid := by
  unfold claimedInSum
  rw [length_queueApply, Finset.sum_range_succ]
  have hq : (queueApply cfg s wid sender a m r).gClaimedOut = s.gClaimedOut := rfl
  have hqi : (queueApply cfg s wid sender a m r).intents wid =
      s.intents wid ++ [queueIntent cfg wid sender a m r] := by
    simp [queueApply, fupd_self]
  rw [hq, hqi, hg]
  simp only [Option.isSome_none, Bool.false_eq_true, if_false, add_zero]
  refine Finset.sum_congr rfl fun i hi => ?_
  rw [getD_append_lt _ _ _ _ (Finset.mem_range.mp hi)]

end StealthSwap
namespace StealthSwap

theorem gClaimedOut_claimApply (s : ExecState) (wid iid : ℕ) :
    (claimApply s wid iid).gClaimedOut wid =
      fupd (s.gClaimedOut wid) iid (some (claimAmountOut s wid iid)) := by
  simp [claimApply, fupd2, fupd_self]

theorem claimedOutSum_claimApply (s : ExecState) (wid iid : ℕ)
    (hiid : iid < (s.intents wid).length) (hnone : s.gClaimedOut wid iid = none) :
    claimedOutSum (claimApply s wid iid) wid =
      claimedOutSum s wid + claimAmountOut s wid iid := by
  unfold claimedOutSum
  rw [length_claimApply]
  have hstep : (∑ i ∈ Finset.range (s.intents wid).length,
      ((claimApply s wid iid).gClaimedOut wid i).getD 0) =
      ∑ i ∈ Finset.range (s.intents wid).length,
        (if i = iid then claimAmountOut s wid iid else (s.gClaimedOut wid i).getD 0) := by
    refine Finset.sum_congr rfl fun i _ => ?_
    rw [gClaimedOut_claimApply]
    by_cases hi : i = iid
    · rw [hi, fupd_self]
      simp
    · rw [fupd_ne _ _ _ _ hi, if_neg hi]
  rw [hstep]
  have hpt := sum_ite_point (s.intents wid).length iid (claimAmountOut s wid iid)
    (fun i => (s.gClaimedOut wid i).getD 0) hiid
  simp only [hnone] at hpt
  simp only [Option.getD_none, add_zero] at hpt
  omega

theorem claimedInSum_claimApply (s : ExecState) (wid iid : ℕ)
    (hiid : iid < (s.intents wid).length) (hnone : s.gClaimedOut wid iid = none) :
    claimedInSum (claimApply s wid iid) wid =
      claimedInSum s wid + (intentAt s wid iid).amountIn := by
  unfold claimedInSum
  rw [length_claimApply]
  have hstep : (∑ i ∈ Finset.range (s.intents wid).length,
      (if ((claimApply s wid iid).gClaimedOut wid i).isSome then
        (((claimApply s wid iid).intents wid).getD i dummyIntent).amountIn else 0)) =
      ∑ i ∈ Finset.range (s.intents wid).length,
        (if i = iid then (intentAt s wid iid).amountIn
         else if (s.gClaimedOut wid i).isSome then
           ((s.intents wid).getD i dummyIntent).amountIn else 0) := by
    refine Finset.sum_congr rfl fun i hi => ?_
    rw [gClaimedOut_claimApply, intents_claimApply]
    by_cases hieq : i = iid
    · subst hieq
      rw [fupd_self, getD_set_self _ _ _ _ hiid]
      simp [intentAt]
    · rw [fupd_ne _ _ _ _ hieq, if_neg hieq]
      by_cases hs : (s.gClaimedOut wid i).isSome
      · rw [if_pos hs, if_pos hs, amountIn_set_claimed s wid iid i (Finset.mem_range.mp hi)]
      · rw [if_neg hs, if_neg hs]
  rw [hstep]
  have hpt := sum_ite_point (s.intents wid).length iid (intentAt s wid iid).amountIn
    (fun i => if (s.gClaimedOut wid i).isSome then
      ((s.intents wid).getD i dummyIntent).amountIn else 0) hiid
  simp only [hnone] at hpt
  simp only [Option.isSome_none, Bool.false_eq_true, if_false, add_zero] at hpt
  rw [hpt]
  omega

theorem uncancelledInSum_claimApply (s : ExecState) (wid iid : ℕ) :
    uncancelledInSum (claimApply s wid iid) wid = uncancelledInSum s wid := by
  unfold uncancelledInSum
  rw [length_claimApply]
  refine Finset.sum_congr rfl fun i hi => ?_
  have hc : (claimApply s wid iid).gCancelled = s.gCancelled := rfl
  rw [hc, intents_claimApply]
  by_cases hcan : s.gCancelled wid i = true
  · rw [if_pos hcan, if_pos hcan]
  · rw [if_neg hcan, if_neg hcan, amountIn_set_claimed s wid iid i (Finset.mem_range.mp hi)]

theorem uncancelledCount_claimApply (s : ExecState) (wid iid : ℕ) :
    uncancelledCount (claimApply s wid iid) wid = uncancelledCount s wid := by
  unfold uncancelledCount
  rw [length_claimApply]
  have hc : (claimApply s wid iid).gCancelled = s.gCancelled := rfl
  rw [hc]

theorem gCancelled_cancelApply (s : ExecState) (wid iid : ℕ) :
    (cancelApply s wid iid).gCancelled wid = fupd (s.gCancelled wid) iid true := by
  simp [cancelApply, fupd2, fupd_self]

theorem uncancelledInSum_cancelApply (s : ExecState) (wid iid : ℕ)
    (hiid : iid < (s.intents wid).length) (hcanc : s.gCancelled wid iid = false) :
    uncancelledInSum (cancelApply s wid iid) wid + (intentAt s wid iid).amountIn =
      uncancelledInSum s wid := by
  unfold uncancelledInSum
  rw [length_cancelApply]
  have hstep : (∑ i ∈ Finset.range (s.intents wid).length,
      (if (cancelApply s wid iid).gCancelled wid i = true then 0
       else (((cancelApply s wid iid).intents wid).getD i dummyIntent).amountIn)) =
      ∑ i ∈ Finset.range (s.intents wid).length,
        (if i = iid then 0
         else if s.gCancelled wid i = true then 0
         else ((s.intents wid).getD i dummyIntent).amountIn) := by
    refine Finset.sum_congr rfl fun i hi => ?_
    rw [gCancelled_cancelApply, intents_cancelApply]
    by_cases hieq : i = iid
    · subst hieq
      rw [fupd_self]
      simp
    · rw [fupd_ne _ _ _ _ hieq]
      by_cases hcan : s.gCancelled wid i = true
      · rw [if_neg hieq, if_pos hcan, if_pos hcan]
      · rw [if_neg hieq, if_neg hcan, if_neg hcan,
          amountIn_set_claimed s wid iid i (Finset.mem_range.mp hi)]
  rw [hstep]
  have hpt := sum_ite_point (s.intents wid).length iid 0
    (fun i => if s.gCancelled wid i = true then 0
      else ((s.intents wid).getD i dummyIntent).amountIn) hiid
  simp only [hcanc] at hpt
  simp only [Bool.false_eq_true, if_false] at hpt
  simp only [intentAt]
  omega

theorem uncancelledCount_cancelApply (s : ExecState) (wid iid : ℕ)
    (hiid : iid < (s.intents wid).length) (hcanc : s.gCancelled wid iid = false) :
    uncancelledCount (cancelApply s wid iid) wid + 1 = uncancelledCount s wid := by
  unfold uncancelledCount
  rw [length_cancelApply]
  have hstep : (∑ i ∈ Finset.range (s.intents wid).length,
      (if (cancelApply s wid iid).gCancelled wid i = true then 0 else 1)) =
      ∑ i ∈ Finset.range (s.intents wid).length,
        (if i = iid then 0 else if s.gCancelled wid i = true then 0 else 1) := by
    refine Finset.sum_congr rfl fun i _ => ?_
    rw [gCancelled_cancelApply]
    by_cases hieq : i = iid
    · subst hieq
      rw [fupd_self]
      simp
    · rw [fupd_ne _ _ _ _ hieq, if_neg hieq]
  rw [hstep]
  have hpt := sum_ite_point (s.intents wid).length iid 0
    (fun i => if s.gCancelled wid i = true then 0 else 1) hiid
  simp only [hcanc] at hpt
  simp only [Bool.false_eq_true, if_false] at hpt
  omega

theorem claimedOutSum_cancelApply (s : ExecState) (wid iid : ℕ) :
    claimedOutSum (cancelApply s wid iid) wid = claimedOutSum s wid := by
  unfold claimedOutSum
  rw [length_cancelApply]
  have hc : (cancelApply s wid iid).gClaimedOut = s.gClaimedOut := rfl
  rw [hc]

theorem claimedInSum_cancelApply (s : ExecState) (wid iid : ℕ) :
    claimedInSum (cancelApply s wid iid) wid = claimedInSum s wid := by
  unfold claimedInSum
  rw [length_cancelApply]
  refine Finset.sum_congr rfl fun i hi => ?_
  have hc : (cancelApply s wid iid).gClaimedOut = s.gClaimedOut := rfl
  rw [hc, intents_cancelApply]
  by_cases hs : (s.gClaimedOut wid i).isSome
  · rw [if_pos hs, if_pos hs, amountIn_set_claimed s wid iid i (Finset.mem_range.mp hi)]
  · rw [if_neg hs, if_neg hs]

theorem sums_congr (s t : ExecState) (w : ℕ) (hI : t.intents w = s.intents w)
    (hC : t.gCancelled w = s.gCancelled w) (hO : t.gClaimedOut w = s.gClaimedOut w) :
    claimedOutSum t w = claimedOutSum s w ∧ claimedInSum t w = claimedInSum s w ∧
    uncancelledInSum t w = uncancelledInSum s w ∧ uncancelledCount t w = uncancelledCount s w := by
  unfold claimedOutSum claimedInSum uncancelledInSum uncancelledCount
  rw [hI, hC, hO]
  exact ⟨rfl, rfl, rfl, rfl⟩

end StealthSwap
namespace StealthSwap

theorem currentWindowIdRaw_eq {cfg : Cfg} (hN : 0 < cfg.blocksPerWindow) {blk : ℕ}
    (hbound : blk < cfg.startBlock + U64 * cfg.blocksPerWindow) :
    currentWindowIdRaw cfg blk = (blk - cfg.startBlock) / cfg.blocksPerWindow := by
  unfold currentWindowIdRaw
  apply Nat.mod_eq_of_lt
  rw [Nat.div_lt_iff_lt_mul hN]
  have hdpos : 0 < U64 * cfg.blocksPerWindow := Nat.mul_pos (by norm_num [U64]) hN
  omega

theorem target_ne_ended {cfg : Cfg} (hN : 0 < cfg.blocksPerWindow) {blk w : ℕ}
    (hbound : blk < cfg.startBlock + U64 * cfg.blocksPerWindow)
    (hend : cfg.startBlock + (w + 1) * cfg.blocksPerWindow ≤ blk) :
    ¬ currentWindowIdRaw cfg blk = w := by
  rw [currentWindowIdRaw_eq hN hbound]
  intro hEq
  have hle : w + 1 ≤ (blk - cfg.startBlock) / cfg.blocksPerWindow :=
    (Nat.le_div_iff_mul_le hN).mpr (by omega)
  omega

theorem windowEnd_eq (cfg : Cfg) (w : ℕ) :
    (getWindowBounds cfg w).2 = cfg.startBlock + (w + 1) * cfg.blocksPerWindow := by
  unfold getWindowBounds
  ring

/-- Reachability invariant of the ledger: `lb` is an upper bound already
reached by the block counter (every future transaction executes at a block
at or after `lb`). -/
structure Inv (cfg : Cfg) (lb : ℕ) (s : ExecState) : Prop where
  totalIn_eq : ∀ w, (s.windows w).totalIn = uncancelledInSum s w
  count_eq : ∀ w, (s.windows w).intentCount = uncancelledCount s w
  flag_eq : ∀ w i, i < (s.intents w).length →
    ((s.intents w).getD i dummyIntent).claimed =
      (s.gCancelled w i || (s.gClaimedOut w i).isSome)
  not_both : ∀ w i, s.gCancelled w i = true → s.gClaimedOut w i = none
  ghost_none : ∀ w i, (s.intents w).length ≤ i →
    s.gCancelled w i = false ∧ s.gClaimedOut w i = none
  cleared_past : ∀ w, (s.windows w).cleared = true →
    cfg.startBlock + (w + 1) * cfg.blocksPerWindow ≤ lb
  cancelled_past : ∀ w i, s.gCancelled w i = true →
    cfg.startBlock + (w + 1) * cfg.blocksPerWindow ≤ lb
  unclr_noclaim : ∀ w i, (s.windows w).cleared = false → s.gClaimedOut w i = none
  co_bound : ∀ w, (s.windows w).cleared = true →
    claimedOutSum s w ≤ (s.windows w).totalOut * claimedInSum s w / (s.windows w).totalIn

theorem Inv.mono {cfg : Cfg} {lb lb' : ℕ} {s : ExecState} (h : Inv cfg lb s) (hle : lb ≤ lb') :
    Inv cfg lb' s :=
  { totalIn_eq := h.totalIn_eq, count_eq := h.count_eq, flag_eq := h.flag_eq,
    not_both := h.not_both, ghost_none := h.ghost_none,
    cleared_past := fun w hw => le_trans (h.cleared_past w hw) hle,
    cancelled_past := fun w i hw => le_trans (h.cancelled_past w i hw) hle,
    unclr_noclaim := h.unclr_noclaim, co_bound := h.co_bound }

theorem init_inv (cfg : Cfg) (lb : ℕ) : Inv cfg lb initState := by
  constructor <;> intro w <;>
    simp [initState, uncancelledInSum, uncancelledCount, claimedOutSum, claimedInSum]

theorem inv_clearApply {cfg : Cfg} {lb : ℕ} {s : ExecState} {blk wid : ℕ}
    (hinv : Inv cfg lb s) (hclr : (s.windows wid).cleared = false)
    (hend : (getWindowBounds cfg wid).2 ≤ blk) (hblk : lb ≤ blk) :
    Inv cfg blk (clearApply s wid) := by
  have hW : ∀ w, ¬ w = wid → (clearApply s wid).windows w = s.windows w := by
    intro w hw
    simp [clearApply, fupd_ne _ _ _ _ hw]
  have hWs : (clearApply s wid).windows wid =
      { totalIn := (s.windows wid).totalIn,
        totalOut := computeWindowTotalOut wid (s.windows wid).totalIn,
        intentCount := (s.windows wid).intentCount, cleared := true } := by
    simp [clearApply, fupd_self]
  have hI : ∀ w, (clearApply s wid).intents w = s.intents w := fun _ => rfl
  have hC : ∀ w, (clearApply s wid).gCancelled w = s.gCancelled w := fun _ => rfl
  have hO : ∀ w, (clearApply s wid).gClaimedOut w = s.gClaimedOut w := fun _ => rfl
  have hsums := fun w => sums_congr s (clearApply s wid) w (hI w) (hC w) (hO w)
  have hCO0 : claimedOutSum s wid = 0 := by
    unfold claimedOutSum
    refine Finset.sum_eq_zero fun i _ => ?_
    rw [hinv.unclr_noclaim wid i hclr]
    rfl
  constructor
  · intro w
    by_cases hw : w = wid
    · subst hw
      rw [hWs, (hsums w).2.2.1]
      exact hinv.totalIn_eq w
    · rw [hW w hw, (hsums w).2.2.1]
      exact hinv.totalIn_eq w
  · intro w
    by_cases hw : w = wid
    · subst hw
      rw [hWs, (hsums w).2.2.2]
      exact hinv.count_eq w
    · rw [hW w hw, (hsums w).2.2.2]
      exact hinv.count_eq w
  · intro w i hi
    rw [hI] at hi ⊢
    rw [hC, hO]
    exact hinv.flag_eq w i hi
  · intro w i hc
    rw [hC] at hc
    rw [hO]
    exact hinv.not_both w i hc
  · intro w i hi
    rw [hI] at hi
    rw [hC, hO]
    exact hinv.ghost_none w i hi
  · intro w hw
    by_cases hweq : w = wid
    · subst hweq
      rw [windowEnd_eq] at hend
      omega
    · rw [hW w hweq] at hw
      exact le_trans (hinv.cleared_past w hw) hblk
  · intro w i hc
    rw [hC] at hc
    exact le_trans (hinv.cancelled_past w i hc) hblk
  · intro w i hw
    by_cases hweq : w = wid
    · subst hweq
      rw [hWs] at hw
      simp at hw
    · rw [hW w hweq] at hw
      rw [hO]
      exact hinv.unclr_noclaim w i hw
  · intro w hw
    by_cases hweq : w = wid
    · subst hweq
      rw [(hsums w).1, hCO0]
      exact Nat.zero_le _
    · rw [hW w hweq] at hw ⊢
      rw [(hsums w).1, (hsums w).2.1]
      exact hinv.co_bound w hw

end StealthSwap
namespace StealthSwap

theorem intentAt_getD (s : ExecState) (wid iid : ℕ) :
    intentAt s wid iid = (s.intents wid).getD iid dummyIntent := rfl

theorem ghost_false_of_unclaimed {cfg : Cfg} {lb : ℕ} {s : ExecState} {wid iid : ℕ}
    (hinv : Inv cfg lb s) (hiid : iid < (s.intents wid).length)
    (hflag : (intentAt s wid iid).claimed = false) :
    s.gCancelled wid iid = false ∧ s.gClaimedOut wid iid = none := by
  have h := hinv.flag_eq wid iid hiid
  rw [← intentAt_getD, hflag] at h
  have hor := h.symm
  rw [Bool.or_eq_false_iff] at hor
  exact ⟨hor.1, by
    rcases hx : s.gClaimedOut wid iid with _ | v
    · rfl
    · rw [hx] at hor
      simp at hor⟩

theorem inv_claimApply {cfg : Cfg} {lb : ℕ} {s : ExecState} {blk wid iid : ℕ}
    (hinv : Inv cfg lb s) (hclr : (s.windows wid).cleared = true)
    (hiid : iid < (s.intents wid).length)
    (hflag : (intentAt s wid iid).claimed = false) (hblk : lb ≤ blk) :
    Inv cfg blk (claimApply s wid iid) := by
  obtain ⟨hcanc, hnone⟩ := ghost_false_of_unclaimed hinv hiid hflag
  have hWin : (claimApply s wid iid).windows = s.windows := rfl
  have hC : (claimApply s wid iid).gCancelled = s.gCancelled := rfl
  have hI_ne : ∀ w, ¬ w = wid → (claimApply s wid iid).intents w = s.intents w := by
    intro w hw
    simp [claimApply, fupd_ne _ _ _ _ hw]
  have hO_ne : ∀ w, ¬ w = wid → (claimApply s wid iid).gClaimedOut w = s.gClaimedOut w := by
    intro w hw
    simp [claimApply, fupd2, fupd_ne _ _ _ _ hw]
  have hsums := fun w hw => sums_congr s (claimApply s wid iid) w (hI_ne w hw) (by rw [hC])
    (hO_ne w hw)
  constructor
  · intro w
    rw [hWin]
    by_cases hw : w = wid
    · subst hw
      rw [uncancelledInSum_claimApply]
      exact hinv.totalIn_eq w
    · rw [(hsums w hw).2.2.1]
      exact hinv.totalIn_eq w
  · intro w
    rw [hWin]
    by_cases hw : w = wid
    · subst hw
      rw [uncancelledCount_claimApply]
      exact hinv.count_eq w
    · rw [(hsums w hw).2.2.2]
      exact hinv.count_eq w
  · intro w i hi
    by_cases hw : w = wid
    · subst hw
      rw [length_claimApply] at hi
      rw [hC, intents_claimApply]
      by_cases hieq : i = iid
      · subst hieq
        rw [getD_set_self _ _ _ _ hi, gClaimedOut_claimApply, fupd_self]
        simp [hcanc]
      · rw [getD_set_ne _ _ _ _ _ hieq, gClaimedOut_claimApply, fupd_ne _ _ _ _ hieq]
        exact hinv.flag_eq w i hi
    · rw [hI_ne w hw] at hi
      rw [hC, hI_ne w hw, hO_ne w hw]
      exact hinv.flag_eq w i hi
  · intro w i hc
    rw [hC] at hc
    by_cases hw : w = wid
    · subst hw
      by_cases hieq : i = iid
      · subst hieq
        rw [hcanc] at hc
        exact absurd hc (by simp)
      · rw [gClaimedOut_claimApply, fupd_ne _ _ _ _ hieq]
        exact hinv.not_both w i hc
    · rw [hO_ne w hw]
      exact hinv.not_both w i hc
  · intro w i hi
    by_cases hw : w = wid
    · subst hw
      rw [length_claimApply] at hi
      have hineq : ¬ i = iid := by omega
      rw [hC, gClaimedOut_claimApply, fupd_ne _ _ _ _ hineq]
      exact hinv.ghost_none w i hi
    · rw [hI_ne w hw] at hi
      rw [hC, hO_ne w hw]
      exact hinv.ghost_none w i hi
  · intro w hw
    rw [hWin] at hw
    exact le_trans (hinv.cleared_past w hw) hblk
  · intro w i hc
    rw [hC] at hc
    exact le_trans (hinv.cancelled_past w i hc) hblk
  · intro w i hw
    rw [hWin] at hw
    by_cases hweq : w = wid
    · subst hweq
      rw [hclr] at hw
      exact absurd hw (by simp)
    · rw [hO_ne w hweq]
      exact hinv.unclr_noclaim w i hw
  · intro w hw
    rw [hWin] at hw ⊢
    by_cases hweq : w = wid
    · subst hweq
      rw [claimedOutSum_claimApply s w iid hiid hnone, claimedInSum_claimApply s w iid hiid hnone]
      have hco := hinv.co_bound w hclr
      have hout : claimAmountOut s w iid =
          (s.windows w).totalOut * (intentAt s w iid).amountIn / (s.windows w).totalIn := by
        unfold claimAmountOut
        rw [Nat.mul_comm]
      have hstep1 : claimedOutSum s w + claimAmountOut s w iid ≤
          (s.windows w).totalOut * claimedInSum s w / (s.windows w).totalIn +
          (s.windows w).totalOut * (intentAt s w iid).amountIn / (s.windows w).totalIn := by
        rw [hout]
        exact Nat.add_le_add_right hco _
      refine le_trans hstep1 ?_
      refine le_trans (div_add_div_le _ _ _) ?_
      rw [← Nat.mul_add]
    · rw [(hsums w hweq).1, (hsums w hweq).2.1]
      exact hinv.co_bound w hw

end StealthSwap
namespace StealthSwap

theorem inv_cancelApply {cfg : Cfg} {lb : ℕ} {s : ExecState} {blk wid iid : ℕ}
    (hinv : Inv cfg lb s) (hclr : (s.windows wid).cleared = false)
    (hiid : iid < (s.intents wid).length)
    (hdelay : (getWindowBounds cfg wid).2 + cfg.cancelDelayBlocks ≤ blk)
    (hflag : (intentAt s wid iid).claimed = false)
    (hunder : (intentAt s wid iid).amountIn ≤ (s.windows wid).totalIn)
    (hblk : lb ≤ blk) :
    Inv cfg blk (cancelApply s wid iid) := by
  obtain ⟨hcanc, hnone⟩ := ghost_false_of_unclaimed hinv hiid hflag
  have hendblk : cfg.startBlock + (wid + 1) * cfg.blocksPerWindow ≤ blk := by
    rw [windowEnd_eq] at hdelay
    omega
  have hO : (cancelApply s wid iid).gClaimedOut = s.gClaimedOut := rfl
  have hW_ne : ∀ w, ¬ w = wid → (cancelApply s wid iid).windows w = s.windows w := by
    intro w hw
    simp [cancelApply, fupd_ne _ _ _ _ hw]
  have hW_self : (cancelApply s wid iid).windows wid =
      { totalIn := (s.windows wid).totalIn - (intentAt s wid iid).amountIn,
        totalOut := (s.windows wid).totalOut,
        intentCount := (s.windows wid).intentCount - 1,
        cleared := (s.windows wid).cleared } := by
    simp [cancelApply, fupd_self]
  have hI_ne : ∀ w, ¬ w = wid → (cancelApply s wid iid).intents w = s.intents w := by
    intro w hw
    simp [cancelApply, fupd_ne _ _ _ _ hw]
  have hC_ne : ∀ w, ¬ w = wid → (cancelApply s wid iid).gCancelled w = s.gCancelled w := by
    intro w hw
    simp [cancelApply, fupd2, fupd_ne _ _ _ _ hw]
  have hsums := fun w hw => sums_congr s (cancelApply s wid iid) w (hI_ne w hw) (hC_ne w hw)
    (by rw [hO])
  constructor
  · intro w
    by_cases hw : w = wid
    · subst hw
      rw [hW_self]
      have hsum := uncancelledInSum_cancelApply s w iid hiid hcanc
      have hold := hinv.totalIn_eq w
      simp only []
      omega
    · rw [hW_ne w hw, (hsums w hw).2.2.1]
      exact hinv.totalIn_eq w
  · intro w
    by_cases hw : w = wid
    · subst hw
      rw [hW_self]
      have hsum := uncancelledCount_cancelApply s w iid hiid hcanc
      have hold := hinv.count_eq w
      simp only []
      omega
    · rw [hW_ne w hw, (hsums w hw).2.2.2]
      exact hinv.count_eq w
  · intro w i hi
    by_cases hw : w = wid
    · subst hw
      rw [length_cancelApply] at hi
      rw [intents_cancelApply, gCancelled_cancelApply]
      by_cases hieq : i = iid
      · subst hieq
        rw [getD_set_self _ _ _ _ hi, fupd_self]
        simp
      · rw [getD_set_ne _ _ _ _ _ hieq, fupd_ne _ _ _ _ hieq, hO]
        exact hinv.flag_eq w i hi
    · rw [hI_ne w hw] at hi
      rw [hI_ne w hw, hC_ne w hw, hO]
      exact hinv.flag_eq w i hi
  · intro w i hc
    rw [hO]
    by_cases hw : w = wid
    · subst hw
      by_cases hieq : i = iid
      · subst hieq
        exact hnone
      · rw [gCancelled_cancelApply, fupd_ne _ _ _ _ hieq] at hc
        exact hinv.not_both w i hc
    · rw [hC_ne w hw] at hc
      exact hinv.not_both w i hc
  · intro w i hi
    by_cases hw : w = wid
    · subst hw
      rw [length_cancelApply] at hi
      have hineq : ¬ i = iid := by omega
      rw [gCancelled_cancelApply, fupd_ne _ _ _ _ hineq, hO]
      exact hinv.ghost_none w i hi
    · rw [hI_ne w hw] at hi
      rw [hC_ne w hw, hO]
      exact hinv.ghost_none w i hi
  · intro w hw
    by_cases hweq : w = wid
    · subst hweq
      rw [hW_self] at hw
      simp only [] at hw
      rw [hclr] at hw
      exact absurd hw (by simp)
    · rw [hW_ne w hweq] at hw
      exact le_trans (hinv.cleared_past w hw) hblk
  · intro w i hc
    by_cases hw : w = wid
    · subst hw
      by_cases hieq : i = iid
      · subst hieq
        exact hendblk
      · rw [gCancelled_cancelApply, fupd_ne _ _ _ _ hieq] at hc
        exact le_trans (hinv.cancelled_past w i hc) hblk
    · rw [hC_ne w hw] at hc
      exact le_trans (hinv.cancelled_past w i hc) hblk
  · intro w i hw
    rw [hO]
    by_cases hweq : w = wid
    · subst hweq
      exact hinv.unclr_noclaim w i hclr
    · rw [hW_ne w hweq] at hw
      exact hinv.unclr_noclaim w i hw
  · intro w hw
    by_cases hweq : w = wid
    · subst hweq
      rw [hW_self] at hw
      simp only [] at hw
      rw [hclr] at hw
      exact absurd hw (by simp)
    · rw [hW_ne w hweq] at hw ⊢
      rw [(hsums w hweq).1, (hsums w hweq).2.1]
      exact hinv.co_bound w hw

theorem inv_queueApply {cfg : Cfg} {lb : ℕ} {s : ExecState} {blk : ℕ}
    (hwf : cfg.WF) (hinv : Inv cfg lb s) (sender a m r : ℕ)
    (hblk : lb ≤ blk) (hbound : blk < cfg.startBlock + U64 * cfg.blocksPerWindow) :
    Inv cfg blk (queueApply cfg s (currentWindowIdRaw cfg blk) sender a m r) := by
  obtain ⟨hN, _, _, _, _⟩ := hwf
  have hclr : (s.windows (currentWindowIdRaw cfg blk)).cleared = false := by
    rcases hcb : (s.windows (currentWindowIdRaw cfg blk)).cleared with _ | _
    · rfl
    · exfalso
      exact target_ne_ended hN hbound
        (le_trans (hinv.cleared_past _ hcb) hblk) rfl
  obtain ⟨hgc, hgo⟩ :=
    hinv.ghost_none (currentWindowIdRaw cfg blk)
      (s.intents (currentWindowIdRaw cfg blk)).length (le_refl _)
  set wid := currentWindowIdRaw cfg blk with hwid
  have hW_ne : ∀ w, ¬ w = wid →
      (queueApply cfg s wid sender a m r).windows w = s.windows w := by
    intro w hw
    simp [queueApply, fupd_ne _ _ _ _ hw]
  have hW_self : (queueApply cfg s wid sender a m r).windows wid =
      { totalIn := (s.windows wid).totalIn + a,
        totalOut := (s.windows wid).totalOut,
        intentCount := (s.windows wid).intentCount + 1,
        cleared := (s.windows wid).cleared } := by
    simp [queueApply, fupd_self]
  have hI_ne : ∀ w, ¬ w = wid →
      (queueApply cfg s wid sender a m r).intents w = s.intents w := by
    intro w hw
    simp [queueApply, fupd_ne _ _ _ _ hw]
  have hI_self : (queueApply cfg s wid sender a m r).intents wid =
      s.intents wid ++ [queueIntent cfg wid sender a m r] := by
    simp [queueApply, fupd_self]
  have hC : (queueApply cfg s wid sender a m r).gCancelled = s.gCancelled := rfl
  have hO : (queueApply cfg s wid sender a m r).gClaimedOut = s.gClaimedOut := rfl
  have hsums := fun w hw => sums_congr s (queueApply cfg s wid sender a m r) w (hI_ne w hw)
    (by rw [hC]) (by rw [hO])
  constructor
  · intro w
    by_cases hw : w = wid
    · subst hw
      rw [hW_self, uncancelledInSum_queueApply cfg s wid sender a m r hgc]
      simp only []
      rw [hinv.totalIn_eq wid]
    · rw [hW_ne w hw, (hsums w hw).2.2.1]
      exact hinv.totalIn_eq w
  · intro w
    by_cases hw : w = wid
    · subst hw
      rw [hW_self, uncancelledCount_queueApply cfg s wid sender a m r hgc]
      simp only []
      rw [hinv.count_eq wid]
    · rw [hW_ne w hw, (hsums w hw).2.2.2]
      exact hinv.count_eq w
  · intro w i hi
    by_cases hw : w = wid
    · subst hw
      rw [hI_self] at hi ⊢
      rw [hC, hO]
      simp only [List.length_append, List.length_singleton] at hi
      by_cases hilt : i < (s.intents wid).length
      · rw [getD_append_lt _ _ _ _ hilt]
        exact hinv.flag_eq wid i hilt
      · have hieq : i = (s.intents wid).length := by omega
        subst hieq
        rw [getD_append_len, hgc, hgo]
        rfl
    · rw [hI_ne w hw] at hi
      rw [hC, hO, hI_ne w hw]
      exact hinv.flag_eq w i hi
  · intro w i hc
    rw [hC] at hc
    rw [hO]
    exact hinv.not_both w i hc
  · intro w i hi
    rw [hC, hO]
    by_cases hw : w = wid
    · subst hw
      rw [hI_self] at hi
      simp only [List.length_append, List.length_singleton] at hi
      exact hinv.ghost_none wid i (by omega)
    · rw [hI_ne w hw] at hi
      exact hinv.ghost_none w i hi
  · intro w hw
    by_cases hweq : w = wid
    · subst hweq
      rw [hW_self] at hw
      simp only [] at hw
      rw [hclr] at hw
      exact absurd hw (by simp)
    · rw [hW_ne w hweq] at hw
      exact le_trans (hinv.cleared_past w hw) hblk
  · intro w i hc
    rw [hC] at hc
    exact le_trans (hinv.cancelled_past w i hc) hblk
  · intro w i hw
    rw [hO]
    by_cases hweq : w = wid
    · subst hweq
      exact hinv.unclr_noclaim wid i hclr
    · rw [hW_ne w hweq] at hw
      exact hinv.unclr_noclaim w i hw
  · intro w hw
    by_cases hweq : w = wid
    · subst hweq
      rw [hW_self] at hw
      simp only [] at hw
      rw [hclr] at hw
      exact absurd hw (by simp)
    · rw [hW_ne w hweq] at hw ⊢
      rw [(hsums w hweq).1, (hsums w hweq).2.1]
      exact hinv.co_bound w hw

end StealthSwap
namespace StealthSwap

theorem step_inv {cfg : Cfg} (hwf : cfg.WF) {lb : ℕ} {s : ExecState} (hinv : Inv cfg lb s)
    (c : Call) (hblk : lb ≤ c.blk)
    (hbound : c.blk < cfg.startBlock + U64 * cfg.blocksPerWindow) :
    Inv cfg c.blk (step cfg s c) := by
  obtain ⟨blk, sender, act⟩ := c
  simp only at hblk hbound
  cases act with
  | queue a m r =>
    rcases hop : queueSwapExactIn cfg s blk sender a m r with e | out
    · simp only [step, hop]
      exact hinv.mono hblk
    · obtain ⟨s', wid, iid⟩ := out
      simp only [step, hop]
      obtain ⟨_, _, _, hwid, _, _, _, hs'⟩ := queue_ok hop
      rw [hs', hwid]
      exact inv_queueApply hwf hinv sender a m r hblk hbound
  | clearW wid =>
    rcases hop : clear cfg s blk wid with e | s'
    · simp only [step, hop]
      exact hinv.mono hblk
    · simp only [step, hop]
      obtain ⟨_, hclr, hend, hs'⟩ := clear_ok hop
      rw [hs']
      exact inv_clearApply hinv hclr hend hblk
  | claimI wid iid =>
    rcases hop : claim cfg s blk sender wid iid with e | out
    · simp only [step, hop]
      exact hinv.mono hblk
    · obtain ⟨s', amt⟩ := out
      simp only [step, hop]
      obtain ⟨hclr, hiid, _, hflag, _, _, _, _, hs'⟩ := claim_ok hop
      rw [hs']
      exact inv_claimApply hinv hclr hiid hflag hblk
  | cancelI wid iid =>
    rcases hop : cancelUncleared cfg s blk sender wid iid with e | s'
    · simp only [step, hop]
      exact hinv.mono hblk
    · simp only [step, hop]
      obtain ⟨_, hclr, hiid, hdelay, _, hflag, hunder, hs'⟩ := cancel_ok hop
      rw [hs']
      exact inv_cancelApply hinv hclr hiid hdelay hflag hunder hblk

/-- Non-decreasing block numbers along a transaction list, starting at or
after `lb` (EVM semantics: `block.number` never decreases between
transactions). -/
def blocksMono (lb : ℕ) : List Call → Bool
  | [] => true
  | c :: cs => Nat.ble lb c.blk && blocksMono c.blk cs

/-- Block number of the last transaction (`lb` for the empty list). -/
def lastBlk (lb : ℕ) : List Call → ℕ
  | [] => lb
  | c :: cs => lastBlk c.blk cs

theorem blocksMono_cons {lb : ℕ} {c : Call} {cs : List Call}
    (h : blocksMono lb (c :: cs) = true) :
    lb ≤ c.blk ∧ blocksMono c.blk cs = true := by
  unfold blocksMono at h
  rw [Bool.and_eq_true] at h
  exact ⟨Nat.le_of_ble_eq_true h.1, h.2⟩

theorem run_append (cfg : Cfg) (s : ExecState) (l1 l2 : List Call) :
    run cfg s (l1 ++ l2) = run cfg (run cfg s l1) l2 :=
  List.foldl_append _ _ _ _

theorem blocksMono_append {l1 l2 : List Call} :
    ∀ lb, blocksMono lb (l1 ++ l2) = true →
      blocksMono lb l1 = true ∧ blocksMono (lastBlk lb l1) l2 = true := by
  induction l1 with
  | nil =>
    intro lb h
    exact ⟨rfl, h⟩
  | cons c cs ih =>
    intro lb h
    rw [List.cons_append] at h
    obtain ⟨h1, h2⟩ := blocksMono_cons h
    obtain ⟨h3, h4⟩ := ih c.blk h2
    refine ⟨?_, h4⟩
    unfold blocksMono
    rw [Bool.and_eq_true]
    exact ⟨Nat.ble_eq_true_of_le h1, h3⟩

theorem lastBlk_le {lb : ℕ} : ∀ {calls : List Call}, blocksMono lb calls = true →
    lb ≤ lastBlk lb calls := by
  intro calls
  induction calls generalizing lb with
  | nil => intro _; exact le_refl lb
  | cons c cs ih =>
    intro h
    obtain ⟨h1, h2⟩ := blocksMono_cons h
    exact le_trans h1 (ih h2)

theorem run_inv {cfg : Cfg} (hwf : cfg.WF) :
    ∀ (calls : List Call) {lb : ℕ} {s : ExecState}, Inv cfg lb s →
      blocksMono lb calls = true →
      (∀ c ∈ calls, c.blk < cfg.startBlock + U64 * cfg.blocksPerWindow) →
      Inv cfg (lastBlk lb calls) (run cfg s calls) := by
  intro calls
  induction calls with
  | nil =>
    intro lb s hinv _ _
    exact hinv
  | cons c cs ih =>
    intro lb s hinv hmono hbound
    obtain ⟨h1, h2⟩ := blocksMono_cons hmono
    have hstep := step_inv hwf hinv c h1 (hbound c (List.mem_cons_self c cs))
    exact ih hstep h2 fun d hd => hbound d (List.mem_cons_of_mem c hd)

end StealthSwap
namespace StealthSwap

theorem step_frozen {cfg : Cfg} (hwf : cfg.WF) {lb : ℕ} {s : ExecState}
    (hinv : Inv cfg lb s) {w : ℕ} (hclr : (s.windows w).cleared = true)
    (c : Call) (hblk : lb ≤ c.blk)
    (hbound : c.blk < cfg.startBlock + U64 * cfg.blocksPerWindow) :
    (step cfg s c).windows w = s.windows w := by
  obtain ⟨blk, sender, act⟩ := c
  simp only at hblk hbound
  obtain ⟨hN, _⟩ := hwf
  cases act with
  | queue a m r =>
    rcases hop : queueSwapExactIn cfg s blk sender a m r with e | out
    · simp only [step, hop]
    · obtain ⟨s', wid, iid⟩ := out
      simp only [step, hop]
      obtain ⟨_, _, _, hwid, _, _, _, hs'⟩ := queue_ok hop
      have hne : ¬ w = wid := by
        intro hEq
        refine target_ne_ended hN hbound
          (le_trans (hinv.cleared_past w hclr) hblk) ?_
        rw [← hwid, hEq]
      rw [hs']
      simp [queueApply, fupd_ne _ _ _ _ hne]
  | clearW wid =>
    rcases hop : clear cfg s blk wid with e | s'
    · simp only [step, hop]
    · simp only [step, hop]
      obtain ⟨_, hclr2, _, hs'⟩ := clear_ok hop
      have hne : ¬ w = wid := by
        intro hEq
        rw [hEq, hclr2] at hclr
        exact absurd hclr (by simp)
      rw [hs']
      simp [clearApply, fupd_ne _ _ _ _ hne]
  | claimI wid iid =>
    rcases hop : claim cfg s blk sender wid iid with e | out
    · simp only [step, hop]
    · obtain ⟨s', amt⟩ := out
      simp only [step, hop]
      obtain ⟨_, _, _, _, _, _, _, _, hs'⟩ := claim_ok hop
      rw [hs']
      rfl
  | cancelI wid iid =>
    rcases hop : cancelUncleared cfg s blk sender wid iid with e | s'
    · simp only [step, hop]
    · simp only [step, hop]
      obtain ⟨_, hclr2, _, _, _, _, _, hs'⟩ := cancel_ok hop
      have hne : ¬ w = wid := by
        intro hEq
        rw [hEq, hclr2] at hclr
        exact absurd hclr (by simp)
      rw [hs']
      simp [cancelApply, fupd_ne _ _ _ _ hne]

theorem run_frozen {cfg : Cfg} (hwf : cfg.WF) :
    ∀ (calls : List Call) {lb : ℕ} {s : ExecState}, Inv cfg lb s → ∀ {w : ℕ},
      (s.windows w).cleared = true → blocksMono lb calls = true →
      (∀ c ∈ calls, c.blk < cfg.startBlock + U64 * cfg.blocksPerWindow) →
      (run cfg s calls).windows w = s.windows w := by
  intro calls
  induction calls with
  | nil =>
    intro lb s _ w _ _ _
    rfl
  | cons c cs ih =>
    intro lb s hinv w hclr hmono hbound
    obtain ⟨h1, h2⟩ := blocksMono_cons hmono
    have hb1 := hbound c (List.mem_cons_self c cs)
    have hfr := step_frozen hwf hinv hclr c h1 hb1
    have hinv2 := step_inv hwf hinv c h1 hb1
    have hclr2 : ((step cfg s c).windows w).cleared = true := by
      rw [hfr]
      exact hclr
    have := ih hinv2 hclr2 h2 (fun d hd => hbound d (List.mem_cons_of_mem c hd))
    rw [run, List.foldl_cons] at *
    rw [this, hfr]

theorem step_dead {cfg : Cfg} (hwf : cfg.WF) {lb : ℕ} {s : ExecState}
    (hinv : Inv cfg lb s) {w j : ℕ}
    (hcount : (s.windows w).intentCount = 0) (hclr : (s.windows w).cleared = false)
    (hcanc : s.gCancelled w j = true)
    (c : Call) (hblk : lb ≤ c.blk)
    (hbound : c.blk < cfg.startBlock + U64 * cfg.blocksPerWindow) :
    (step cfg s c).windows w = s.windows w ∧ (step cfg s c).gCancelled w j = true := by
  obtain ⟨blk, sender, act⟩ := c
  simp only at hblk hbound
  obtain ⟨hN, _⟩ := hwf
  cases act with
  | queue a m r =>
    rcases hop : queueSwapExactIn cfg s blk sender a m r with e | out
    · simp only [step, hop]
      exact ⟨by simp, hcanc⟩
    · obtain ⟨s', wid, iid⟩ := out
      simp only [step, hop]
      obtain ⟨_, _, _, hwid, _, _, _, hs'⟩ := queue_ok hop
      have hne : ¬ w = wid := by
        intro hEq
        refine target_ne_ended hN hbound
          (le_trans (hinv.cancelled_past w j hcanc) hblk) ?_
        rw [← hwid, hEq]
      rw [hs']
      constructor
      · simp [queueApply, fupd_ne _ _ _ _ hne]
      · exact hcanc
  | clearW wid =>
    rcases hop : clear cfg s blk wid with e | s'
    · simp only [step, hop]
      exact ⟨by simp, hcanc⟩
    · simp only [step, hop]
      obtain ⟨hcnt2, _, _, hs'⟩ := clear_ok hop
      have hne : ¬ w = wid := by
        intro hEq
        rw [← hEq] at hcnt2
        exact hcnt2 hcount
      rw [hs']
      constructor
      · simp [clearApply, fupd_ne _ _ _ _ hne]
      · exact hcanc
  | claimI wid iid =>
    rcases hop : claim cfg s blk sender wid iid with e | out
    · simp only [step, hop]
      exact ⟨by simp, hcanc⟩
    · obtain ⟨s', amt⟩ := out
      simp only [step, hop]
      obtain ⟨_, _, _, _, _, _, _, _, hs'⟩ := claim_ok hop
      rw [hs']
      exact ⟨rfl, hcanc⟩
  | cancelI wid iid =>
    rcases hop : cancelUncleared cfg s blk sender wid iid with e | s'
    · simp only [step, hop]
      exact ⟨by simp, hcanc⟩
    · simp only [step, hop]
      obtain ⟨hcnt2, _, _, _, _, _, _, hs'⟩ := cancel_ok hop
      have hne : ¬ w = wid := by
        intro hEq
        rw [← hEq] at hcnt2
        exact hcnt2 hcount
      rw [hs']
      constructor
      · simp [cancelApply, fupd_ne _ _ _ _ hne]
      · rw [show (cancelApply s wid iid).gCancelled = fupd2 s.gCancelled wid iid true from rfl]
        unfold fupd2
        rw [fupd_ne _ _ _ _ hne]
        exact hcanc

theorem run_dead {cfg : Cfg} (hwf : cfg.WF) :
    ∀ (calls : List Call) {lb : ℕ} {s : ExecState}, Inv cfg lb s → ∀ {w j : ℕ},
      (s.windows w).intentCount = 0 → (s.windows w).cleared = false →
      s.gCancelled w j = true → blocksMono lb calls = true →
      (∀ c ∈ calls, c.blk < cfg.startBlock + U64 * cfg.blocksPerWindow) →
      (run cfg s calls).windows w = s.windows w := by
  intro calls
  induction calls with
  | nil =>
    intro lb s _ w j _ _ _ _ _
    rfl
  | cons c cs ih =>
    intro lb s hinv w j hcount hclr hcanc hmono hbound
    obtain ⟨h1, h2⟩ := blocksMono_cons hmono
    have hb1 := hbound c (List.mem_cons_self c cs)
    obtain ⟨hfr, hcanc2⟩ := step_dead hwf hinv hcount hclr hcanc c h1 hb1
    have hinv2 := step_inv hwf hinv c h1 hb1
    have hcount2 : ((step cfg s c).windows w).intentCount = 0 := by
      rw [hfr]; exact hcount
    have hclr2 : ((step cfg s c).windows w).cleared = false := by
      rw [hfr]; exact hclr
    have := ih hinv2 hcount2 hclr2 hcanc2 h2
      (fun d hd => hbound d (List.mem_cons_of_mem c hd))
    rw [run, List.foldl_cons] at *
    rw [this, hfr]

theorem step_flag {cfg : Cfg} (s : ExecState) (c : Call) {w o : ℕ}
    (h : s.hasQueuedIntent w o = true) : (step cfg s c).hasQueuedIntent w o = true := by
  obtain ⟨blk, sender, act⟩ := c
  cases act with
  | queue a m r =>
    rcases hop : queueSwapExactIn cfg s blk sender a m r with e | out
    · simp only [step, hop]
      exact h
    · obtain ⟨s', wid, iid⟩ := out
      simp only [step, hop]
      obtain ⟨_, _, _, _, _, _, _, hs'⟩ := queue_ok hop
      rw [hs']
      rw [show (queueApply cfg s wid sender a m r).hasQueuedIntent =
        fupd2 s.hasQueuedIntent wid sender true from rfl]
      unfold fupd2
      by_cases hw : w = wid
      · subst hw
        rw [fupd_self]
        unfold fupd
        by_cases ho : o = sender
        · rw [if_pos ho]
        · rw [if_neg ho]
          exact h
      · rw [fupd_ne _ _ _ _ hw]
        exact h
  | clearW wid =>
    rcases hop : clear cfg s blk wid with e | s'
    · simp only [step, hop]
      exact h
    · simp only [step, hop]
      obtain ⟨_, _, _, hs'⟩ := clear_ok hop
      rw [hs']
      exact h
  | claimI wid iid =>
    rcases hop : claim cfg s blk sender wid iid with e | out
    · simp only [step, hop]
      exact h
    · obtain ⟨s', amt⟩ := out
      simp only [step, hop]
      obtain ⟨_, _, _, _, _, _, _, _, hs'⟩ := claim_ok hop
      rw [hs']
      exact h
  | cancelI wid iid =>
    rcases hop : cancelUncleared cfg s blk sender wid iid with e | s'
    · simp only [step, hop]
      exact h
    · simp only [step, hop]
      obtain ⟨_, _, _, _, _, _, _, hs'⟩ := cancel_ok hop
      rw [hs']
      exact h

theorem run_flag {cfg : Cfg} : ∀ (calls : List Call) (s : ExecState) {w o : ℕ},
    s.hasQueuedIntent w o = true → (run cfg s calls).hasQueuedIntent w o = true := by
  intro calls
  induction calls with
  | nil =>
    intro s w o h
    exact h
  | cons c cs ih =>
    intro s w o h
    rw [run, List.foldl_cons]
    exact ih _ (step_flag s c h)

end StealthSwap
namespace StealthSwap

theorem claimedInSum_le {cfg : Cfg} {lb : ℕ} {s : ExecState} (hinv : Inv cfg lb s) (w : ℕ) :
    claimedInSum s w ≤ (s.windows w).totalIn := by
  rw [hinv.totalIn_eq w]
  unfold claimedInSum uncancelledInSum
  refine Finset.sum_le_sum fun i _ => ?_
  by_cases hs : (s.gClaimedOut w i).isSome
  · rw [if_pos hs]
    have hc : s.gCancelled w i = false := by
      rcases hcb : s.gCancelled w i with _ | _
      · rfl
      · rw [hinv.not_both w i hcb] at hs
        exact absurd hs (by simp)
    rw [hc]
    simp
  · rw [if_neg hs]
    exact Nat.zero_le _

theorem co_le_totalOut {cfg : Cfg} {lb : ℕ} {s : ExecState} (hinv : Inv cfg lb s) (w : ℕ) :
    claimedOutSum s w ≤ (s.windows w).totalOut := by
  rcases hcb : (s.windows w).cleared with _ | _
  · have hz : claimedOutSum s w = 0 := by
      unfold claimedOutSum
      refine Finset.sum_eq_zero fun i _ => ?_
      rw [hinv.unclr_noclaim w i hcb]
      rfl
    rw [hz]
    exact Nat.zero_le _
  · have h1 := hinv.co_bound w hcb
    have h2 : (s.windows w).totalOut * claimedInSum s w ≤
        (s.windows w).totalOut * (s.windows w).totalIn :=
      Nat.mul_le_mul_left _ (claimedInSum_le hinv w)
    have h3 : (s.windows w).totalOut * claimedInSum s w / (s.windows w).totalIn ≤
        (s.windows w).totalOut * (s.windows w).totalIn / (s.windows w).totalIn :=
      Nat.div_le_div_right h2
    have h4 : (s.windows w).totalOut * (s.windows w).totalIn / (s.windows w).totalIn ≤
        (s.windows w).totalOut := by
      rcases Nat.eq_zero_or_pos (s.windows w).totalIn with hD | hD
      · rw [hD]
        simp
      · rw [Nat.mul_div_cancel _ hD]
    exact le_trans h1 (le_trans h3 h4)

theorem gcwi_ok {cfg : Cfg} {blk wid : ℕ} (h : getCurrentWindowId cfg blk = Except.ok wid) :
    cfg.startBlock ≤ blk ∧ wid = currentWindowIdRaw cfg blk := by
  unfold getCurrentWindowId at h
  split at h
  · exact absurd h (by simp)
  · rename_i hlt
    simp only [Except.ok.injEq] at h
    exact ⟨by omega, h.symm⟩

theorem backoffCalls_le {E A : Type} (fn : ℕ → Except E A) :
    ∀ (fuel attempt : ℕ), backoffCalls fn fuel attempt ≤ fuel + 1 := by
  intro fuel
  induction fuel with
  | zero =>
    intro attempt
    exact le_refl 1
  | succ f ih =>
    intro attempt
    unfold backoffCalls
    rcases hf : fn attempt with e | a
    · have := ih (attempt + 1)
      simp only []
      omega
    · simp only []
      omega

theorem backoffRun_ok {E A : Type} (fn : ℕ → Except E A) :
    ∀ (fuel attempt j : ℕ) (a : A), attempt ≤ j → j ≤ attempt + fuel →
      (∀ i, attempt ≤ i → i < j → exceptIsOk (fn i) = false) →
      fn j = Except.ok a → backoffRun fn fuel attempt = Except.ok a := by
  intro fuel
  induction fuel with
  | zero =>
    intro attempt j a h1 h2 _ hj
    have : j = attempt := by omega
    subst this
    unfold backoffRun
    exact hj
  | succ f ih =>
    intro attempt j a h1 h2 hfail hj
    unfold backoffRun
    by_cases hja : j = attempt
    · subst hja
      rw [hj]
    · have hfa := hfail attempt (le_refl _) (by omega)
      rcases hf : fn attempt with e | b
      · exact ih (attempt + 1) j a (by omega) (by omega)
          (fun i hi1 hi2 => hfail i (by omega) hi2) hj
      · rw [hf] at hfa
        exact absurd hfa (by simp [exceptIsOk])

theorem backoffRun_err {E A : Type} (fn : ℕ → Except E A) :
    ∀ (fuel attempt : ℕ) (e : E),
      (∀ i, attempt ≤ i → i < attempt + fuel → exceptIsOk (fn i) = false) →
      fn (attempt + fuel) = Except.error e → backoffRun fn fuel attempt = Except.error e := by
  intro fuel
  induction fuel with
  | zero =>
    intro attempt e _ hlast
    unfold backoffRun
    simpa using hlast
  | succ f ih =>
    intro attempt e hfail hlast
    unfold backoffRun
    have hfa := hfail attempt (le_refl _) (by omega)
    rcases hf : fn attempt with e0 | b
    · refine ih (attempt + 1) e (fun i hi1 hi2 => hfail i (by omega) (by omega)) ?_
      have : attempt + 1 + f = attempt + (f + 1) := by omega
      rw [this]
      exact hlast
    · rw [hf] at hfa
      exact absurd hfa (by simp [exceptIsOk])

theorem delaySeq_succ (base maxDelay : ℕ) :
    ∀ k, delaySeq base maxDelay (k + 1) = min (base * 2 ^ (k + 1)) maxDelay := by
  intro k
  induction k with
  | zero =>
    simp only [delaySeq, pow_one]
    omega
  | succ n ih =>
    have hstep : delaySeq base maxDelay (n + 2) =
        min (2 * delaySeq base maxDelay (n + 1)) maxDelay := rfl
    rw [hstep, ih]
    have hp : base * 2 ^ (n + 2) = 2 * (base * 2 ^ (n + 1)) := by ring
    rw [hp]
    omega

theorem delaySeq_capped (base maxDelay : ℕ) (hbm : base ≤ maxDelay) :
    ∀ k, delaySeq base maxDelay k = min (base * 2 ^ k) maxDelay := by
  intro k
  cases k with
  | zero =>
    unfold delaySeq
    rw [pow_zero, Nat.mul_one]
    omega
  | succ n => exact delaySeq_succ base maxDelay n

end StealthSwap
namespace StealthSwap

/-- Concrete deployment used by witnesses and counterexamples:
`startBlock = 0`, `blocksPerWindow = 1`, `cancelDelayBlocks = 0`,
`maxIntentsPerWindow = 10`, `minAmountIn = 1`. -/
def cfgA : Cfg :=
  { startBlock := 0, blocksPerWindow := 1, cancelDelayBlocks := 0,
    maxIntentsPerWindow := 10, minAmountIn := 1, zeroForOneDirection := false }

theorem cfgA_wf : cfgA.WF := by
  unfold Cfg.WF cfgA
  refine ⟨by decide, by decide, by decide, by decide, by decide⟩

/-- Queue one intent of 100 in window 0, clear the window, claim the intent. -/
def traceC1ok : List Call :=
  [ { blk := 0, sender := 1, act := Act.queue 100 0 7 },
    { blk := 1, sender := 9, act := Act.clearW 0 },
    { blk := 1, sender := 1, act := Act.claimI 0 0 } ]

/-- Same, then at block `2 ^ 64` the uint64 downcast of the window id wraps to
window 0 again: a second owner queues into the already-cleared window 0 and
claims against the enlarged `totalIn`. -/
def traceWrap : List Call :=
  [ { blk := 0, sender := 1, act := Act.queue 100 0 7 },
    { blk := 1, sender := 9, act := Act.clearW 0 },
    { blk := 1, sender := 1, act := Act.claimI 0 0 },
    { blk := U64, sender := 2, act := Act.queue 100 0 7 },
    { blk := U64, sender := 2, act := Act.claimI 0 1 } ]

/-- C1 (amended): on every execution whose block numbers are non-decreasing
and stay below `startBlock + 2 ^ 64 * blocksPerWindow` (so the uint64
window-id downcast never truncates), the sum of `amountOut` over all
successfully claimed intents of a window never exceeds the window's
`totalOut`: each claim pays `floor(totalOut * amountIn / totalIn)`, each
intent claims at most once, and `totalIn` equals the sum of `amountIn` over
the non-cancelled intents. -/
theorem c1_claimed_sum_le_totalOut (cfg : Cfg) (hwf : cfg.WF) (calls : List Call)
    (hmono : blocksMono 0 calls = true)
    (hbound : ∀ c ∈ calls, c.blk < cfg.startBlock + U64 * cfg.blocksPerWindow) (w : ℕ) :
    claimedOutSum (run cfg initState calls) w ≤
      ((run cfg initState calls).windows w).totalOut :=
  co_le_totalOut (run_inv hwf calls (init_inv cfg 0) hmono hbound) w

/-- Witness for C1 at a concrete execution: one intent of 100, cleared and
claimed; the claimed sum stays within `totalOut`. -/
theorem c1_claimed_sum_le_totalOut_witness :
    claimedOutSum (run cfgA initState traceC1ok) 0 ≤
      ((run cfgA initState traceC1ok).windows 0).totalOut :=
  c1_claimed_sum_le_totalOut cfgA cfgA_wf traceC1ok (by decide) (by decide) 0

/-- C1 counterexample: as literally stated the claim is false.  At block
`2 ^ 64` the uint64 downcast in `getCurrentWindowId` wraps, `queueSwapExactIn`
appends to the long-cleared window 0 (totalIn 100 → 200, totalOut fixed at
100), and the two claims pay 100 + 50 = 150 > totalOut = 100. -/
theorem c1_counterexample_wrap_overdraw :
    claimedOutSum (run cfgA initState traceWrap) 0 = 150 ∧
    ((run cfgA initState traceWrap).windows 0).totalOut = 100 ∧
    ¬ (claimedOutSum (run cfgA initState traceWrap) 0 ≤
      ((run cfgA initState traceWrap).windows 0).totalOut) := by
  refine ⟨by decide, by decide, by decide⟩

/-- Prefix of `traceWrap`: window 0 cleared with totalIn = totalOut = 100. -/
def traceC3pre : List Call :=
  [ { blk := 0, sender := 1, act := Act.queue 100 0 7 },
    { blk := 1, sender := 9, act := Act.clearW 0 } ]

/-- C3 (amended): on every execution whose block numbers are non-decreasing
and stay below `startBlock + 2 ^ 64 * blocksPerWindow`, once a window's
`cleared` flag is true no later operation changes any field of its window
record (in particular `totalOut` and `totalIn` are frozen): `clear` and
`cancelUncleared` are guarded by the flag, `claim` never writes the window
record, and `queueSwapExactIn` targets the current window, whose end boundary
has not passed yet. -/
theorem c3_cleared_window_frozen (cfg : Cfg) (hwf : cfg.WF) (pre post : List Call)
    (hmono : blocksMono 0 (pre ++ post) = true)
    (hbound : ∀ c ∈ pre ++ post, c.blk < cfg.startBlock + U64 * cfg.blocksPerWindow)
    (w : ℕ) (hclr : ((run cfg initState pre).windows w).cleared = true) :
    (run cfg initState (pre ++ post)).windows w = (run cfg initState pre).windows w := by
  obtain ⟨hm1, hm2⟩ := blocksMono_append 0 hmono
  have hb1 : ∀ c ∈ pre, c.blk < cfg.startBlock + U64 * cfg.blocksPerWindow :=
    fun c hc => hbound c (List.mem_append_left _ hc)
  have hb2 : ∀ c ∈ post, c.blk < cfg.startBlock + U64 * cfg.blocksPerWindow :=
    fun c hc => hbound c (List.mem_append_right _ hc)
  rw [run_append]
  exact run_frozen hwf post (run_inv hwf pre (init_inv cfg 0) hm1 hb1) hclr hm2 hb2

/-- Witness for C3: after window 0 is cleared, a later submission (which lands
in window 2) leaves window 0's record untouched. -/
theorem c3_cleared_window_frozen_witness :
    (run cfgA initState
        (traceC3pre ++ [{ blk := 2, sender := 2, act := Act.queue 50 0 7 }])).windows 0 =
      (run cfgA initState traceC3pre).windows 0 :=
  c3_cleared_window_frozen cfgA cfgA_wf traceC3pre
    [{ blk := 2, sender := 2, act := Act.queue 50 0 7 }] (by decide) (by decide) 0 (by decide)

/-- C3 counterexample: as literally stated the claim is false.  Window 0 is
cleared with `totalIn = 100`, yet the submission at block `2 ^ 64` (whose
uint64 window id wraps back to 0) raises the cleared window's `totalIn` to
200. -/
theorem c3_counterexample_wrap_totalIn :
    ((run cfgA initState traceC3pre).windows 0).cleared = true ∧
    ((run cfgA initState traceC3pre).windows 0).totalIn = 100 ∧
    ((run cfgA initState
        (traceC3pre ++ [{ blk := U64, sender := 2, act := Act.queue 100 0 7 }])).windows
        0).totalIn = 200 := by
  refine ⟨by decide, by decide, by decide⟩

/-- Queue one intent of 100 into window 0, then cancel it at block 1 (the
cancel delay is 0), emptying the window. -/
def traceC10pre : List Call :=
  [ { blk := 0, sender := 1, act := Act.queue 100 0 7 },
    { blk := 1, sender := 1, act := Act.cancelI 0 0 } ]

/-- C10 (amended): on every execution whose block numbers are non-decreasing
and stay below `startBlock + 2 ^ 64 * blocksPerWindow`, if every intent of an
uncleared window has been cancelled then its `intentCount` is 0, and on every
later reachable state every `clear` of that window, at every block, fails
with `UnknownWindow`: the window can never be cleared. -/
theorem c10_drained_window_uncloseable (cfg : Cfg) (hwf : cfg.WF) (pre post : List Call)
    (hmono : blocksMono 0 (pre ++ post) = true)
    (hbound : ∀ c ∈ pre ++ post, c.blk < cfg.startBlock + U64 * cfg.blocksPerWindow)
    (w : ℕ) (hlen : 0 < ((run cfg initState pre).intents w).length)
    (hall : ∀ i, i < ((run cfg initState pre).intents w).length →
      (run cfg initState pre).gCancelled w i = true)
    (hunclr : ((run cfg initState pre).windows w).cleared = false) :
    ((run cfg initState pre).windows w).intentCount = 0 ∧
    ∀ blk2, clear cfg (run cfg initState (pre ++ post)) blk2 w =
      Except.error HookError.UnknownWindow := by
  obtain ⟨hm1, hm2⟩ := blocksMono_append 0 hmono
  have hb1 : ∀ c ∈ pre, c.blk < cfg.startBlock + U64 * cfg.blocksPerWindow :=
    fun c hc => hbound c (List.mem_append_left _ hc)
  have hb2 : ∀ c ∈ post, c.blk < cfg.startBlock + U64 * cfg.blocksPerWindow :=
    fun c hc => hbound c (List.mem_append_right _ hc)
  have hinv := run_inv hwf pre (init_inv cfg 0) hm1 hb1
  have hcount : ((run cfg initState pre).windows w).intentCount = 0 := by
    rw [hinv.count_eq w]
    unfold uncancelledCount
    refine Finset.sum_eq_zero fun i hi => ?_
    rw [hall i (Finset.mem_range.mp hi)]
    simp
  have hcanc0 := hall 0 hlen
  have hfrozen := run_dead hwf post hinv hcount hunclr hcanc0 hm2 hb2
  refine ⟨hcount, fun blk2 => ?_⟩
  rw [run_append]
  unfold clear
  rw [hfrozen, hcount]
  simp

/-- Witness for C10: queue then cancel the only intent of window 0; its count
is 0 and clearing it keeps failing with `UnknownWindow` after further calls. -/
theorem c10_drained_window_uncloseable_witness :
    ((run cfgA initState traceC10pre).windows 0).intentCount = 0 ∧
    clear cfgA
        (run cfgA initState (traceC10pre ++ [{ blk := 2, sender := 9, act := Act.clearW 0 }]))
        7 0 =
      Except.error HookError.UnknownWindow := by
  refine ⟨?_, ?_⟩
  · exact (c10_drained_window_uncloseable cfgA cfgA_wf traceC10pre
      [{ blk := 2, sender := 9, act := Act.clearW 0 }] (by decide) (by decide) 0
      (by decide) (by decide) (by decide)).1
  · exact (c10_drained_window_uncloseable cfgA cfgA_wf traceC10pre
      [{ blk := 2, sender := 9, act := Act.clearW 0 }] (by decide) (by decide) 0
      (by decide) (by decide) (by decide)).2 7

/-- C10 counterexample: as literally stated the claim is false.  After the
only intent of window 0 is cancelled (count back to 0, window uncleared), a
submission at block `2 ^ 64` wraps back into window 0 and a subsequent
`clear` succeeds, so the drained window does get cleared. -/
theorem c10_counterexample_wrap_reclear :
    (∀ i, i < ((run cfgA initState traceC10pre).intents 0).length →
      (run cfgA initState traceC10pre).gCancelled 0 i = true) ∧
    ((run cfgA initState traceC10pre).windows 0).intentCount = 0 ∧
    ((run cfgA initState traceC10pre).windows 0).cleared = false ∧
    ((run cfgA initState
        (traceC10pre ++
          [ { blk := U64, sender := 2, act := Act.queue 100 0 7 },
            { blk := U64, sender := 9, act := Act.clearW 0 } ])).windows 0).cleared = true := by
  refine ⟨by decide, by decide, by decide, by decide⟩

end StealthSwap
namespace StealthSwap

/-- C2: `clear(windowId)` fails with `UnknownWindow` when `intentCount = 0`;
with `WindowAlreadyCleared` when the window is already cleared (changing no
field, since the transaction reverts); with
`WindowNotEnded(block.number, windowEndExclusive)` when the current counter
is below the exclusive end boundary; and otherwise sets `totalOut` to the
output function applied to `(windowId, totalIn)` and sets `cleared`. -/
theorem c2_clear_cases (cfg : Cfg) (s : ExecState) (blk sender wid : ℕ) :
    ((s.windows wid).intentCount = 0 →
      clear cfg s blk wid = Except.error HookError.UnknownWindow) ∧
    (¬ (s.windows wid).intentCount = 0 → (s.windows wid).cleared = true →
      clear cfg s blk wid = Except.error HookError.WindowAlreadyCleared ∧
      step cfg s { blk := blk, sender := sender, act := Act.clearW wid } = s) ∧
    (¬ (s.windows wid).intentCount = 0 → (s.windows wid).cleared = false →
      blk < (getWindowBounds cfg wid).2 →
      clear cfg s blk wid =
        Except.error (HookError.WindowNotEnded blk (getWindowBounds cfg wid).2)) ∧
    (¬ (s.windows wid).intentCount = 0 → (s.windows wid).cleared = false →
      (getWindowBounds cfg wid).2 ≤ blk →
      clear cfg s blk wid = Except.ok (clearApply s wid) ∧
      (clearApply s wid).windows wid =
        { totalIn := (s.windows wid).totalIn,
          totalOut := computeWindowTotalOut wid (s.windows wid).totalIn,
          intentCount := (s.windows wid).intentCount, cleared := true }) := by
  refine ⟨?_, ?_, ?_, ?_⟩
  · intro h0
    unfold clear
    rw [if_pos h0]
  · intro h0 h1
    have herr : clear cfg s blk wid = Except.error HookError.WindowAlreadyCleared := by
      unfold clear
      rw [if_neg h0, if_pos h1]
    refine ⟨herr, ?_⟩
    simp [step, herr]
  · intro h0 h1 h2
    unfold clear
    rw [if_neg h0, if_neg (by simp [h1]), if_pos h2]
  · intro h0 h1 h2
    constructor
    · unfold clear
      rw [if_neg h0, if_neg (by simp [h1]), if_neg (by omega)]
    · simp [clearApply, fupd_self]

/-- Witness for C2 at concrete states: the four branches of `clear` on a fresh
deployment, a cleared one-intent window, and an open one-intent window before
and after its boundary. -/
theorem c2_clear_cases_witness :
    clear cfgA initState 5 0 = Except.error HookError.UnknownWindow ∧
    (clear cfgA (run cfgA initState traceC3pre) 5 0 =
        Except.error HookError.WindowAlreadyCleared ∧
      step cfgA (run cfgA initState traceC3pre)
        { blk := 5, sender := 9, act := Act.clearW 0 } = run cfgA initState traceC3pre) ∧
    clear cfgA (run cfgA initState [{ blk := 0, sender := 1, act := Act.queue 100 0 7 }]) 0 0 =
      Except.error (HookError.WindowNotEnded 0 1) ∧
    clear cfgA (run cfgA initState [{ blk := 0, sender := 1, act := Act.queue 100 0 7 }]) 1 0 =
      Except.ok (clearApply (run cfgA initState
        [{ blk := 0, sender := 1, act := Act.queue 100 0 7 }]) 0) := by
  refine ⟨?_, ?_, ?_, ?_⟩
  · exact (c2_clear_cases cfgA initState 5 9 0).1 (by decide)
  · exact (c2_clear_cases cfgA (run cfgA initState traceC3pre) 5 9 0).2.1
      (by decide) (by decide)
  · have h := (c2_clear_cases cfgA
      (run cfgA initState [{ blk := 0, sender := 1, act := Act.queue 100 0 7 }]) 0 9 0).2.2.1
      (by decide) (by decide) (by decide)
    exact h
  · exact ((c2_clear_cases cfgA
      (run cfgA initState [{ blk := 0, sender := 1, act := Act.queue 100 0 7 }]) 1 9 0).2.2.2
      (by decide) (by decide) (by decide)).1

/-- C4 (amended): on a cleared window with `totalIn > 0`, provided the 256-bit
product `amountIn * totalOut` does not overflow (otherwise the transaction
reverts with an arithmetic panic, see the counterexample), `claim` computes
`amountOut = floor(amountIn * totalOut / totalIn)` with exact integer
division; when `amountOut < minOut` it fails with
`MinOutNotMet(amountOut, minOut)` and the reverted transaction leaves the
whole state (intent and window included) unchanged; otherwise it succeeds
and returns exactly `amountOut`. -/
theorem c4_claim_prorata_minout (cfg : Cfg) (s : ExecState) (blk sender wid iid : ℕ)
    (hclr : (s.windows wid).cleared = true) (hiid : iid < (s.intents wid).length)
    (huser : (intentAt s wid iid).user = sender)
    (hunclaimed : (intentAt s wid iid).claimed = false)
    (hov : (intentAt s wid iid).amountIn * (s.windows wid).totalOut < U256)
    (hD : ¬ (s.windows wid).totalIn = 0) :
    claimAmountOut s wid iid =
      (intentAt s wid iid).amountIn * (s.windows wid).totalOut / (s.windows wid).totalIn ∧
    (claimAmountOut s wid iid < (intentAt s wid iid).minOut →
      claim cfg s blk sender wid iid =
        Except.error (HookError.MinOutNotMet (claimAmountOut s wid iid)
          (intentAt s wid iid).minOut) ∧
      step cfg s { blk := blk, sender := sender, act := Act.claimI wid iid } = s) ∧
    ((intentAt s wid iid).minOut ≤ claimAmountOut s wid iid →
      claim cfg s blk sender wid iid =
        Except.ok (claimApply s wid iid, claimAmountOut s wid iid)) := by
  refine ⟨rfl, ?_, ?_⟩
  · intro hlt
    have herr : claim cfg s blk sender wid iid =
        Except.error (HookError.MinOutNotMet (claimAmountOut s wid iid)
          (intentAt s wid iid).minOut) := by
      unfold claim
      rw [if_neg (by simp [hclr]), if_neg (by omega), if_neg (by simp [huser]),
        if_neg (by simp [hunclaimed]), if_neg (by omega), if_neg hD, if_pos hlt]
    refine ⟨herr, ?_⟩
    simp [step, herr]
  · intro hge
    unfold claim
    rw [if_neg (by simp [hclr]), if_neg (by omega), if_neg (by simp [huser]),
      if_neg (by simp [hunclaimed]), if_neg (by omega), if_neg hD, if_neg (by omega)]

/-- Queue one intent of 100 with `minOut = 101` and clear the window: the
pro-rata share is 100, below the floor. -/
def traceC4min : List Call :=
  [ { blk := 0, sender := 1, act := Act.queue 100 101 7 },
    { blk := 1, sender := 9, act := Act.clearW 0 } ]

/-- Witness for C4: the computed share 100 is below `minOut = 101`, the claim
reverts with `MinOutNotMet(100, 101)` and the state is unchanged. -/
theorem c4_claim_prorata_minout_witness :
    claim cfgA (run cfgA initState traceC4min) 1 1 0 0 =
      Except.error (HookError.MinOutNotMet (claimAmountOut (run cfgA initState traceC4min) 0 0)
        (intentAt (run cfgA initState traceC4min) 0 0).minOut) ∧
    step cfgA (run cfgA initState traceC4min)
      { blk := 1, sender := 1, act := Act.claimI 0 0 } = run cfgA initState traceC4min :=
  (c4_claim_prorata_minout cfgA (run cfgA initState traceC4min) 1 1 0 0 (by decide) (by decide)
    (by decide) (by decide) (by decide) (by decide)).2.1 (by decide)

/-- Three maximal `uint128` intents from distinct owners, cleared: the inline
256-bit product `amountIn * totalOut` of a claim overflows. -/
def traceC4ovf : List Call :=
  [ { blk := 0, sender := 1, act := Act.queue (2 ^ 128 - 1) 0 7 },
    { blk := 0, sender := 2, act := Act.queue (2 ^ 128 - 1) 0 7 },
    { blk := 0, sender := 3, act := Act.queue (2 ^ 128 - 1) 0 7 },
    { blk := 1, sender := 9, act := Act.clearW 0 } ]

/-- C4 counterexample: as literally stated the claim is false.  On this
cleared window the floor share `2 ^ 128 - 1` meets `minOut = 0`, yet `claim`
reverts with a checked-arithmetic overflow (the source computes
`uint256(amountIn) * totalOut` inline instead of using the full-precision
`StealthBatchMath.proRataOutFloor`), so the claim neither succeeds nor fails
with `MinOutNotMet`. -/
theorem c4_counterexample_overflow :
    ((run cfgA initState traceC4ovf).windows 0).cleared = true ∧
    (intentAt (run cfgA initState traceC4ovf) 0 0).minOut ≤
      claimAmountOut (run cfgA initState traceC4ovf) 0 0 ∧
    U256 ≤ (intentAt (run cfgA initState traceC4ovf) 0 0).amountIn *
      ((run cfgA initState traceC4ovf).windows 0).totalOut ∧
    claim cfgA (run cfgA initState traceC4ovf) 1 1 0 0 =
      Except.error HookError.ArithmeticOverflow := by
  refine ⟨by decide, by decide, by decide, by rfl⟩

/-- Queue one intent of 1000 into window 0 and clear it. -/
def traceC5pre : List Call :=
  [ { blk := 0, sender := 1, act := Act.queue 1000 0 7 },
    { blk := 1, sender := 9, act := Act.clearW 0 } ]

/-- C5 (code bug evidence): a successful claim pays `amountOut = 1000`
(recorded by the emitted `Claimed` event, modelled by `gClaimedOut`) and sets
the intent's `claimed` flag, but the window record is left completely
unchanged: the hook's `WindowState` has no `claimedOutSum` and no
`terminalIntentCount` field to increase, although the repo's ABI
(`getWindow` tuple) and security review require them. -/
theorem c5_claim_updates_intent_only :
    exceptIsOk (claim cfgA (run cfgA initState traceC5pre) 1 1 0 0) = true ∧
    (run cfgA initState
        (traceC5pre ++ [{ blk := 1, sender := 1, act := Act.claimI 0 0 }])).gClaimedOut 0 0 =
      some 1000 ∧
    (intentAt (run cfgA initState
        (traceC5pre ++ [{ blk := 1, sender := 1, act := Act.claimI 0 0 }])) 0 0).claimed =
      true ∧
    (run cfgA initState
        (traceC5pre ++ [{ blk := 1, sender := 1, act := Act.claimI 0 0 }])).windows 0 =
      (run cfgA initState traceC5pre).windows 0 := by
  refine ⟨by rfl, by rfl, by rfl, by decide⟩

end StealthSwap
namespace StealthSwap

/-- C6 (amended): the window clock is monotonic and inverts the bounds, below
the uint64 truncation threshold: `getWindowId` is non-decreasing on counters
at or above `startBlock` whose window quotient fits in a uint64;
`getWindowId(getWindowStart(k)) = k` for every `k < 2 ^ 64`; and
`getWindowId(getWindowEnd(k)) = k + 1` for every `k` with `k + 1 < 2 ^ 64`. -/
theorem c6_window_clock :
    (∀ startBlock N c1 c2 w1 w2 : ℕ, 0 < N → startBlock ≤ c1 → c1 ≤ c2 →
      (c2 - startBlock) / N < U64 →
      getWindowId startBlock N c1 = Except.ok w1 →
      getWindowId startBlock N c2 = Except.ok w2 → w1 ≤ w2) ∧
    (∀ startBlock N k : ℕ, 0 < N → k < U64 →
      getWindowId startBlock N (getWindowStart startBlock N k) = Except.ok k) ∧
    (∀ startBlock N k : ℕ, 0 < N → k + 1 < U64 →
      getWindowId startBlock N (getWindowEnd startBlock N k) = Except.ok (k + 1)) := by
  refine ⟨?_, ?_, ?_⟩
  · intro startBlock N c1 c2 w1 w2 hN h1 h2 hfit h5 h6
    unfold getWindowId at h5 h6
    rw [if_neg (by omega)] at h5
    rw [if_neg (by omega)] at h6
    simp only [Except.ok.injEq] at h5 h6
    have hdle : (c1 - startBlock) / N ≤ (c2 - startBlock) / N :=
      Nat.div_le_div_right (by omega)
    have hm1 : (c1 - startBlock) / N % U64 = (c1 - startBlock) / N :=
      Nat.mod_eq_of_lt (by omega)
    have hm2 : (c2 - startBlock) / N % U64 = (c2 - startBlock) / N :=
      Nat.mod_eq_of_lt hfit
    rw [← h5, ← h6, hm1, hm2]
    exact hdle
  · intro startBlock N k hN hk
    unfold getWindowId getWindowStart
    rw [if_neg (by omega)]
    rw [Nat.add_sub_cancel_left, Nat.mul_div_cancel _ hN, Nat.mod_eq_of_lt hk]
  · intro startBlock N k hN hk
    unfold getWindowId getWindowEnd getWindowStart
    rw [if_neg (by omega)]
    have harith : startBlock + k * N + N - startBlock = (k + 1) * N := by
      have : (k + 1) * N = k * N + N := by ring
      omega
    rw [harith, Nat.mul_div_cancel _ hN, Nat.mod_eq_of_lt hk]

/-- Witness for C6 at concrete values (`startBlock = 5`, `N = 3`):
monotonicity between counters 10 and 20, and the two boundary identities for
window 4. -/
theorem c6_window_clock_witness :
    (1 : ℕ) ≤ 5 ∧
    getWindowId 5 3 (getWindowStart 5 3 4) = Except.ok 4 ∧
    getWindowId 5 3 (getWindowEnd 5 3 4) = Except.ok 5 :=
  ⟨c6_window_clock.1 5 3 10 20 1 5 (by decide) (by decide) (by decide) (by decide) rfl rfl,
   c6_window_clock.2.1 5 3 4 (by decide) (by decide),
   c6_window_clock.2.2 5 3 4 (by decide) (by decide)⟩

/-- C6 counterexample: as literally stated the claim is false at the uint64
boundary.  With `startBlock = 0`, `N = 1`: the counter `2 ^ 64 - 1` maps to
window `2 ^ 64 - 1` but the larger counter `2 ^ 64` wraps to window 0
(monotonicity fails), and `getWindowId(getWindowEnd(2 ^ 64 - 1)) = 0`, not
`(2 ^ 64 - 1) + 1`. -/
theorem c6_counterexample_uint64_wrap :
    getWindowId 0 1 (U64 - 1) = Except.ok (U64 - 1) ∧
    getWindowId 0 1 U64 = Except.ok 0 ∧
    U64 - 1 ≤ U64 ∧ ¬ (U64 - 1 ≤ 0) ∧
    getWindowEnd 0 1 (U64 - 1) = U64 ∧
    ¬ (0 = U64 - 1 + 1) := by
  refine ⟨by rfl, by rfl, by decide, by decide, by decide, by decide⟩

/-- C7: the per-owner-per-window duplicate guard is sticky.  A successful
`queueSwapExactIn` sets `hasQueuedIntent[window][owner]`, no later operation
(cancel and claim included) ever resets it, and while it is set any further
submission by the same owner that targets the same window fails with
`AlreadyQueuedInWindow` (the spec's `DuplicateInWindow`), whatever happened
in between. -/
theorem c7_duplicate_in_window_rejected :
    (∀ (cfg : Cfg) (s : ExecState) (blk sender a m r wid : ℕ),
      getCurrentWindowId cfg blk = Except.ok wid →
      exceptIsOk (queueSwapExactIn cfg s blk sender a m r) = true →
      (step cfg s { blk := blk, sender := sender, act := Act.queue a m r }).hasQueuedIntent
        wid sender = true) ∧
    (∀ (cfg : Cfg) (s : ExecState) (calls : List Call) (blk sender a m r wid : ℕ),
      s.hasQueuedIntent wid sender = true → ¬ r = 0 → cfg.minAmountIn ≤ a →
      getCurrentWindowId cfg blk = Except.ok wid →
      queueSwapExactIn cfg (run cfg s calls) blk sender a m r =
        Except.error HookError.AlreadyQueuedInWindow) := by
  constructor
  · intro cfg s blk sender a m r wid hwid hok
    rcases hop : queueSwapExactIn cfg s blk sender a m r with e | out
    · rw [hop] at hok
      exact absurd hok (by simp [exceptIsOk])
    · obtain ⟨s', wid', iid⟩ := out
      obtain ⟨_, _, _, hwid', _, _, _, hs'⟩ := queue_ok hop
      obtain ⟨_, hwid2⟩ := gcwi_ok hwid
      simp only [step, hop]
      rw [hs', hwid2, ← hwid']
      rw [show (queueApply cfg s wid' sender a m r).hasQueuedIntent =
        fupd2 s.hasQueuedIntent wid' sender true from rfl]
      unfold fupd2
      rw [fupd_self, fupd_self]
  · intro cfg s calls blk sender a m r wid hflag hr hmin hwid
    obtain ⟨hstart, hwid2⟩ := gcwi_ok hwid
    have hflag2 : (run cfg s calls).hasQueuedIntent wid sender = true :=
      run_flag calls s hflag
    unfold queueSwapExactIn
    rw [if_neg hr, if_neg (by omega), if_neg (by omega)]
    rw [← hwid2, if_pos hflag2]

/-- Witness for C7: owner 1 queues in window 0, later cancels the intent, and
the repeated submission targeting window 0 still fails with
`AlreadyQueuedInWindow`. -/
theorem c7_duplicate_in_window_rejected_witness :
    (step cfgA initState
        { blk := 0, sender := 1, act := Act.queue 100 0 7 }).hasQueuedIntent 0 1 = true ∧
    queueSwapExactIn cfgA
        (run cfgA (run cfgA initState [{ blk := 0, sender := 1, act := Act.queue 100 0 7 }])
          [{ blk := 1, sender := 1, act := Act.cancelI 0 0 }]) 0 1 100 0 7 =
      Except.error HookError.AlreadyQueuedInWindow :=
  ⟨c7_duplicate_in_window_rejected.1 cfgA initState 0 1 100 0 7 0 rfl (by rfl),
   c7_duplicate_in_window_rejected.2 cfgA
     (run cfgA initState [{ blk := 0, sender := 1, act := Act.queue 100 0 7 }])
     [{ blk := 1, sender := 1, act := Act.cancelI 0 0 }] 0 1 100 0 7 0
     (by decide) (by decide) (by decide) rfl⟩

/-- C8 (amended): `queueSwapExactIn` rejects an amount with `AmountTooSmall`
exactly when `amountIn < minAmountIn`; an amount equal to the configured
minimum passes the check (the source tests `amountIn < minAmountIn`, not
`≤`). -/
theorem c8_amount_threshold (cfg : Cfg) (s : ExecState) (blk sender a m r : ℕ)
    (hr : ¬ r = 0) :
    (a < cfg.minAmountIn →
      queueSwapExactIn cfg s blk sender a m r = Except.error HookError.AmountTooSmall) ∧
    (cfg.minAmountIn ≤ a →
      ¬ queueSwapExactIn cfg s blk sender a m r = Except.error HookError.AmountTooSmall) := by
  constructor
  · intro hlt
    unfold queueSwapExactIn
    rw [if_neg hr, if_pos hlt]
  · intro hge heq
    unfold queueSwapExactIn at heq
    rw [if_neg hr, if_neg (by omega)] at heq
    split at heq
    · exact absurd heq (by simp)
    split at heq
    · exact absurd heq (by simp)
    split at heq
    · exact absurd heq (by simp)
    · exact absurd heq (by simp)

/-- Deployment with `minAmountIn = 5`. -/
def cfgB : Cfg :=
  { startBlock := 0, blocksPerWindow := 1, cancelDelayBlocks := 0,
    maxIntentsPerWindow := 10, minAmountIn := 5, zeroForOneDirection := false }

/-- Witness for C8: with `minAmountIn = 5`, amount 3 is rejected with
`AmountTooSmall` and amount 5 is not. -/
theorem c8_amount_threshold_witness :
    queueSwapExactIn cfgB initState 0 1 3 0 7 = Except.error HookError.AmountTooSmall ∧
    ¬ queueSwapExactIn cfgB initState 0 1 5 0 7 = Except.error HookError.AmountTooSmall :=
  ⟨(c8_amount_threshold cfgB initState 0 1 3 0 7 (by decide)).1 (by decide),
   (c8_amount_threshold cfgB initState 0 1 5 0 7 (by decide)).2 (by decide)⟩

/-- C8 counterexample: as literally stated the claim is false.  A submission
whose amount equals the configured minimum (5) succeeds instead of failing
with `AmountTooSmall`. -/
theorem c8_counterexample_equal_min_accepted :
    cfgB.minAmountIn = 5 ∧
    exceptIsOk (queueSwapExactIn cfgB initState 0 1 5 0 7) = true := by
  refine ⟨rfl, by rfl⟩

/-- C9 (amended): the `withBackoff` wrapper invokes the wrapped action at most
`maxRetries + 1` times; the delay before the first retry is exactly the base
delay (uncapped, see the counterexample), and the delay before retry `i + 1`
is `min(base * 2 ^ (i + 1), maxDelay)`, so when `base ≤ maxDelay` the capped
doubling formula holds for every retry; the first successful result is
returned unchanged; and when every allowed attempt fails the error of the
last attempt is rethrown. -/
theorem c9_backoff_retry :
    (∀ (E A : Type) (fn : ℕ → Except E A) (fuel attempt : ℕ),
      backoffCalls fn fuel attempt ≤ fuel + 1) ∧
    (∀ base maxDelay : ℕ, delaySeq base maxDelay 0 = base) ∧
    (∀ base maxDelay k : ℕ,
      delaySeq base maxDelay (k + 1) = min (base * 2 ^ (k + 1)) maxDelay) ∧
    (∀ base maxDelay : ℕ, base ≤ maxDelay →
      ∀ k, delaySeq base maxDelay k = min (base * 2 ^ k) maxDelay) ∧
    (∀ (E A : Type) (fn : ℕ → Except E A) (R j : ℕ) (a : A), j ≤ R →
      (∀ i, i < j → exceptIsOk (fn i) = false) → fn j = Except.ok a →
      withBackoff R fn = Except.ok a) ∧
    (∀ (E A : Type) (fn : ℕ → Except E A) (R : ℕ) (e : E),
      (∀ i, i < R → exceptIsOk (fn i) = false) → fn R = Except.error e →
      withBackoff R fn = Except.error e) := by
  refine ⟨?_, ?_, ?_, ?_, ?_, ?_⟩
  · intro E A fn fuel attempt
    exact backoffCalls_le fn fuel attempt
  · intro base maxDelay
    rfl
  · intro base maxDelay k
    exact delaySeq_succ base maxDelay k
  · intro base maxDelay hbm k
    exact delaySeq_capped base maxDelay hbm k
  · intro E A fn R j a hjR hfail hj
    exact backoffRun_ok fn R 0 j a (Nat.zero_le _) (by omega)
      (fun i _ hi => hfail i hi) hj
  · intro E A fn R e hfail hlast
    refine backoffRun_err fn R 0 e (fun i _ hi => hfail i (by omega)) ?_
    rw [Nat.zero_add]
    exact hlast

/-- Wrapped action failing on its first invocation and succeeding on the
second. -/
def fnW : ℕ → Except ℕ ℕ :=
  fun i => if i = 0 then Except.error 0 else Except.ok 7

/-- Witness for C9: with 2 allowed retries, `withBackoff` returns the second
attempt's result 7, and the delay before retry 4 follows the capped doubling
formula. -/
theorem c9_backoff_retry_witness :
    withBackoff 2 fnW = Except.ok 7 ∧
    delaySeq 300 4000 3 = min (300 * 2 ^ 3) 4000 ∧
    backoffCalls fnW 2 0 ≤ 3 :=
  ⟨c9_backoff_retry.2.2.2.2.1 ℕ ℕ fnW 2 1 7 (by decide) (by decide) (by rfl),
   c9_backoff_retry.2.2.2.1 300 4000 (by decide) 3,
   c9_backoff_retry.1 ℕ ℕ fnW 2 0⟩

/-- C9 counterexample: as literally stated the claim is false.  With base
delay 500 above the maximum delay 100 (the config schema only requires both
positive), the delay before the first retry is the uncapped base 500, not
`min(500 * 2 ^ 0, 100) = 100`. -/
theorem c9_counterexample_first_delay_uncapped :
    delaySeq 500 100 0 = 500 ∧ ¬ delaySeq 500 100 0 = min (500 * 2 ^ 0) 100 := by
  refine ⟨rfl, by decide⟩

end StealthSwap
